import Mathlib

/-!
Verification development for the p2play-js core: a shallow embedding of the
state-synchronisation engine (StateManager / ConflictResolver), the peer
manager's host election and inbound-message identity discipline, the event
bus, the movement integrator and the serializer factory, together with
theorems settling the specification claims.

JavaScript runtime conventions used by the embedding:
- JS values are modelled by `JVal`; numbers are modelled by `ℚ` (the claims
  under study only exercise order-theoretic and exact arithmetic facts, so
  binary64 rounding is not load-bearing); `NaN` is a separate constructor.
- A thrown `TypeError` (strict-mode property write on a primitive, property
  read on `null`/`undefined`, iteration of a non-iterable, calling an array
  method on a non-array) is modelled by an error flag that aborts the
  operation while keeping the mutations already performed, matching in-place
  mutation semantics.
- `structuredClone` and object spread produce value copies; in a functional
  model a copy is the value itself.  Reachable states contain no aliasing
  between distinct paths because every write clones, so functional update is
  faithful.
-/

namespace P2Play

abbrev PlayerId := String

/-- Dynamic JavaScript value, as manipulated by the untyped parts of the
    library (parsed JSON envelopes, the replicated state object, delta
    payloads). -/
inductive JVal where
  | null : JVal
  | undef : JVal
  | num : ℚ → JVal
  | nan : JVal
  | str : String → JVal
  | bool : Bool → JVal
  | arr : List JVal → JVal
  | obj : List (String × JVal) → JVal

namespace JVal

/-- First-match association-list lookup, the access order of JS records. -/
def lookup : List (String × JVal) → String → Option JVal
  | [], _ => none
  | (k, v) :: rest, key => if k = key then some v else lookup rest key

/-- JS property write on a record: overwrite the first binding in place,
    otherwise append (insertion-order semantics of JS objects). -/
def setField : List (String × JVal) → String → JVal → List (String × JVal)
  | [], key, x => [(key, x)]
  | (k, v) :: rest, key, x =>
    if k = key then (k, x) :: rest else (k, v) :: setField rest key x

/-- A value the `??` operator skips (JS nullish: `undefined` or `null`).
    A missing property read (`Option.none`) is `undefined`, hence nullish. -/
def nullish : Option JVal → Bool
  | none => true
  | some .undef => true
  | some .null => true
  | some _ => false

/-- JS truthiness of a value. -/
def truthy : JVal → Bool
  | .null => false
  | .undef => false
  | .num q => q ≠ 0
  | .nan => false
  | .str s => s ≠ ""
  | .bool b => b
  | .arr _ => true
  | .obj _ => true

/-- Whether `typeof v === "object" && v !== null` holds (JS object test used
    by the validator): records and arrays qualify, `null` does not. -/
def isObjectType : JVal → Bool
  | .obj _ => true
  | .arr _ => true
  | _ => false

/-- Property read `v[k]`.  Reading a property of `null` or `undefined`
    throws a `TypeError` (modelled as `Except.error`); records look the key
    up (a missing key reads as `undefined`, modelled as `none`); all other
    values (primitives, arrays addressed by a non-index key as in this
    code base) read as `undefined`. -/
def read (v : JVal) (k : String) : Except Unit (Option JVal) :=
  match v with
  | .null => .error ()
  | .undef => .error ()
  | .obj fs => .ok (lookup fs k)
  | _ => .ok none

/-- Property write `v[k] = x`.  In strict mode (ES modules) a write on any
    non-record value throws a `TypeError`. -/
def write (v : JVal) (k : String) (x : JVal) : Except Unit JVal :=
  match v with
  | .obj fs => .ok (.obj (setField fs k x))
  | _ => .error ()

/-- JS `ToNumber` coercion for the values that reach arithmetic in this
    code base (`Math.max`, `++`, `<=`): numbers are themselves, `null` is 0,
    booleans are 0/1, everything else is NaN (`none`).  Numeric strings
    would coerce in JS; no claim exercises them. -/
def toNumber : JVal → Option ℚ
  | .num q => some q
  | .null => some 0
  | .bool b => some (if b then 1 else 0)
  | _ => none

/-- Result of `Math.max(a, b)` (ToNumber coercion on both operands; any
    NaN operand yields NaN). -/
def jsMax (a b : JVal) : JVal :=
  match toNumber a, toNumber b with
  | some x, some y => .num (max x y)
  | _, _ => .nan

/-- JS relational `a <= b` for the operand shapes reached by the sequence
    gate: NaN-style comparisons (any non-number operand) are false. -/
def jsLe (a b : JVal) : Bool :=
  match toNumber a, toNumber b with
  | some x, some y => x ≤ y
  | _, _ => false

/-- JS relational `a < b` (same conventions as `jsLe`). -/
def jsLt (a b : JVal) : Bool :=
  match toNumber a, toNumber b with
  | some x, some y => x < y
  | _, _ => false

/-- JS strict equality `a === b` for the comparisons performed by the
    resolver (`item.id === msg.item.id`, `quantity === 0`): primitives
    compare by value, NaN equals nothing, and two records/arrays reaching
    these comparisons are always distinct allocations (every state write
    clones), so they compare unequal. -/
def strictEq : JVal → JVal → Bool
  | .null, .null => true
  | .undef, .undef => true
  | .num a, .num b => a = b
  | .str a, .str b => a = b
  | .bool a, .bool b => a = b
  | _, _ => false

/-- Binary `a - b` as used by `quantity -= q`. -/
def jsSub (a b : JVal) : JVal :=
  match toNumber a, toNumber b with
  | some x, some y => .num (x - y)
  | _, _ => .nan

/-- Binary `a + b` as used by `quantity += q`. -/
def jsAdd (a b : JVal) : JVal :=
  match toNumber a, toNumber b with
  | some x, some y => .num (x + y)
  | _, _ => .nan

/-- Object spread `{...base, ...v}`: record fields are merged in order,
    arrays and strings spread their indexed elements, primitives contribute
    nothing. -/
def spreadInto (base : List (String × JVal)) (v : JVal) : List (String × JVal) :=
  match v with
  | .obj fs => fs.foldl (fun acc kv => setField acc kv.1 kv.2) base
  | .arr xs => (xs.enum.map fun p => (toString p.1, p.2)).foldl
      (fun acc kv => setField acc kv.1 kv.2) base
  | .str s => (s.data.enum.map fun p => (toString p.1, JVal.str (String.mk [p.2]))).foldl
      (fun acc kv => setField acc kv.1 kv.2) base
  | _ => base

/-- Shallow copy `{...v}` of a single value. -/
def spreadClone (v : JVal) : JVal :=
  .obj (spreadInto [] v)

/-- `Object.entries(v)`: throws on `null`/`undefined`; records list their
    fields, arrays and strings their indexed elements, other primitives
    have no entries. -/
def entries (v : Option JVal) : Except Unit (List (String × JVal)) :=
  match v with
  | none => .error ()
  | some .null => .error ()
  | some .undef => .error ()
  | some (.obj fs) => .ok fs
  | some (.arr xs) => .ok (xs.enum.map fun p => (toString p.1, p.2))
  | some (.str s) => .ok (s.data.enum.map fun p => (toString p.1, JVal.str (String.mk [p.2])))
  | some _ => .ok []

/-- JS property-key coercion `ToPropertyKey` for the values used as map keys
    (`msg.from`, `msg.to`); only string keys are exercised by the claims, the
    other printings are placeholders for JS number/array formatting. -/
def propKey : Option JVal → String
  | some (.str s) => s
  | some (.num q) => toString q
  | some .nan => "NaN"
  | some .null => "null"
  | some (.bool b) => if b then "true" else "false"
  | some .undef => "undefined"
  | none => "undefined"
  | some (.arr _) => "[array]"
  | some (.obj _) => "[object Object]"

/-- Property lookup on a value already known to be non-nullish (used by the
    validator after its null checks). -/
def getProp (v : JVal) (k : String) : Option JVal :=
  match v with
  | .obj fs => lookup fs k
  | _ => none

/-- `typeof x === "string"` on an optional property value. -/
def typeofString : Option JVal → Bool
  | some (.str _) => true
  | _ => false

/-- `typeof x === "number"` on an optional property value (NaN is a number). -/
def typeofNumber : Option JVal → Bool
  | some (.num _) => true
  | some .nan => true
  | _ => false

/-- `Array.isArray(x)` on an optional property value. -/
def typeofArray : Option JVal → Bool
  | some (.arr _) => true
  | _ => false

/-- `x !== null && typeof x === "object"` on an optional property value. -/
def typeofObject : Option JVal → Bool
  | some v => v.isObjectType
  | _ => false

end JVal

open JVal in
/-- Embedding of `isValidNetMessage` (src/net/netMessageGuards.ts): base
    fields `t`, `from`, `ts` plus the per-type structural constraints. -/
def isValidNetMessage (m : JVal) : Bool :=
  match m with
  | .obj fs =>
    match lookup fs "t" with
    | some (.str t) =>
      typeofString (lookup fs "from") && typeofNumber (lookup fs "ts") &&
      (match t with
       | "move" =>
         match lookup fs "position" with
         | some pos =>
           pos.isObjectType && typeofNumber (getProp pos "x") &&
             typeofNumber (getProp pos "y")
         | none => false
       | "inventory" => typeofArray (lookup fs "items")
       | "transfer" =>
         typeofString (lookup fs "to") &&
         (match lookup fs "item" with
          | some item =>
            item.isObjectType && typeofString (getProp item "id") &&
              typeofNumber (getProp item "quantity")
          | none => false)
       | "state_full" => typeofObject (lookup fs "state")
       | "state_delta" => typeofObject (lookup fs "delta")
       | "payload" => true
       | _ => false)
    | _ => false
  | _ => false

/-- Conflict-resolution mode of the resolver. -/
inductive Mode where
  | timestamp : Mode
  | authoritative : Mode
deriving DecidableEq

/-- Authority gate of the resolver: in authoritative mode, with a truthy
    authority id, reject any message whose `from` differs from it
    (`if (auth && msg.from !== auth) return false`). -/
def gateRejects (mode : Mode) (authId : Option PlayerId) (fromv : Option JVal) : Bool :=
  mode = .authoritative &&
    match authId with
    | some a => a ≠ "" && (match fromv with
        | some (.str f) => f ≠ a
        | _ => true)
    | none => false

/-- Result of a resolver operation: the state after the call, the boolean
    the resolver returned, and whether a `TypeError` propagated. -/
structure ROut where
  st : JVal
  accepted : Bool
  err : Bool

/-- Default player record created by `resolveMove` for an unknown sender:
    `{ id: msg.from, position: { x: 0, y: 0 } }`. -/
def defaultPlayer (fromval : JVal) : JVal :=
  .obj [("id", fromval), ("position", .obj [("x", .num 0), ("y", .num 0)])]

/-- Core of `ConflictResolver.resolveMove` in the `Except` monad; every
    error path of this function leaves the state untouched (the only write
    preceding a possible throw rewrites an existing binding with the value
    just read from it), so the wrapper may return the original state on
    error. -/
def resolveMoveCore (mode : Mode) (authId : Option PlayerId) (st msg : JVal) :
    Except Unit (JVal × Bool) := do
  let tv ← msg.read "t"
  match tv with
  | some (.str "move") =>
    let fromv ← msg.read "from"
    if gateRejects mode authId fromv then return (st, false)
    let key := JVal.propKey fromv
    let playersv := (← st.read "players").getD .undef
    let pv ← playersv.read key
    let player := if JVal.nullish pv then defaultPlayer (fromv.getD .undef) else pv.getD .undef
    let players1 ← playersv.write key player
    let st1 ← st.write "players" players1
    let posv ← msg.read "position"
    let (st2, players2, player2) ←
      if JVal.truthy (posv.getD .undef) then do
        let ppos ← player.read "position"
        let np := JVal.obj (JVal.spreadInto (JVal.spreadInto [] (ppos.getD .undef))
          (posv.getD .undef))
        let pl ← player.write "position" np
        let ps ← players1.write key pl
        let s ← st1.write "players" ps
        pure (s, ps, pl)
      else pure (st1, players1, player)
    let velv ← msg.read "velocity"
    let st3 ←
      if JVal.truthy (velv.getD .undef) then do
        let pvel ← player2.read "velocity"
        let nv := JVal.obj (JVal.spreadInto (JVal.spreadInto [] (pvel.getD .undef))
          (velv.getD .undef))
        let pl ← player2.write "velocity" nv
        let ps ← players2.write key pl
        let s ← st2.write "players" ps
        pure s
      else pure st2
    return (st3, true)
  | _ => return (st, false)

/-- Embedding of `ConflictResolver.resolveMove` (src/sync/ConflictResolver.ts
    lines 11-24). -/
def resolveMove (mode : Mode) (authId : Option PlayerId) (st msg : JVal) : ROut :=
  match resolveMoveCore mode authId st msg with
  | .ok (s, a) => ⟨s, a, false⟩
  | .error _ => ⟨st, false, true⟩

/-- Core of `ConflictResolver.resolveInventory`; all its error paths precede
    any state mutation. -/
def resolveInventoryCore (mode : Mode) (authId : Option PlayerId) (st msg : JVal) :
    Except Unit (JVal × Bool) := do
  let tv ← msg.read "t"
  match tv with
  | some (.str "inventory") =>
    let fromv ← msg.read "from"
    if gateRejects mode authId fromv then return (st, false)
    let key := JVal.propKey fromv
    let itemsv ← msg.read "items"
    match itemsv with
    | some (.arr items) =>
      let cloned := JVal.arr (items.map JVal.spreadClone)
      let invv := (← st.read "inventories").getD .undef
      let inv1 ← invv.write key cloned
      let st1 ← st.write "inventories" inv1
      return (st1, true)
    | _ => throw ()
  | _ => return (st, false)

/-- Embedding of `ConflictResolver.resolveInventory` (lines 27-35). -/
def resolveInventory (mode : Mode) (authId : Option PlayerId) (st msg : JVal) : ROut :=
  match resolveInventoryCore mode authId st msg with
  | .ok (s, a) => ⟨s, a, false⟩
  | .error _ => ⟨st, false, true⟩

/-- The `findIndex` scan of `resolveTransfer`: first index whose element's
    `id` strictly equals the transferred item's `id`; reading `.id` of a
    `null` element, or of a `null` transferred item, throws. -/
def findItemIdx (itemv : JVal) : List JVal → Nat → Except Unit (Option Nat)
  | [], _ => .ok none
  | x :: rest, n => do
    let xid ← x.read "id"
    let tid ← itemv.read "id"
    if JVal.strictEq (xid.getD .undef) (tid.getD .undef) then pure (some n)
    else findItemIdx itemv rest (n + 1)

/-- The receiver-side `find`-and-increment of `resolveTransfer`: locate the
    first entry with the transferred item's `id` and add the transferred
    quantity to it in place; `none` when no entry matches. -/
def bumpFirstItem (itemv : JVal) : List JVal → Except Unit (Option (List JVal))
  | [] => .ok none
  | x :: rest => do
    let xid ← x.read "id"
    let tid ← itemv.read "id"
    if JVal.strictEq (xid.getD .undef) (tid.getD .undef) then do
      let q ← x.read "quantity"
      let tq ← itemv.read "quantity"
      let x2 ← x.write "quantity" (JVal.jsAdd (q.getD .undef) (tq.getD .undef))
      pure (some (x2 :: rest))
    else do
      let r ← bumpFirstItem itemv rest
      pure (r.map (x :: ·))

/-- Decrement-prune-merge phase of `resolveTransfer`, entered once the
    sender's array and the matched index are at hand.  The sender's array is
    the live state array (the `?? []` default can only reach the reject
    branch), so the decrement and prune are committed to the state before
    the receiver-side scan runs; when `to` and `from` coincide the two
    locals alias one array and the receiver scan operates on the
    already-decremented list. -/
def resolveTransferApply (st inv : JVal) (fromK toK : String) (itemJ : JVal)
    (fromItems : List JVal) (toRaw : JVal) (idx : Nat) : ROut :=
  let item := fromItems.getD idx .undef
  match item.read "quantity", itemJ.read "quantity" with
  | .ok q0, .ok tq =>
    if JVal.jsLt (q0.getD .undef) (tq.getD .undef) then ⟨st, false, false⟩
    else
      let newq := JVal.jsSub (q0.getD .undef) (tq.getD .undef)
      match item.write "quantity" newq with
      | .error _ => ⟨st, false, true⟩
      | .ok item2 =>
        let decd := fromItems.set idx item2
        let pruned := if JVal.strictEq newq (.num 0) then decd.eraseIdx idx else decd
        let invMid : JVal := .obj
          (match inv with
           | .obj fs => JVal.setField fs fromK (.arr pruned)
           | _ => [(fromK, .arr pruned)])
        let stMid := match st.write "inventories" invMid with
          | .ok s => s
          | .error _ => st
        let proceed : Option (List JVal) :=
          if toK = fromK then some pruned else
            match toRaw with
            | .arr xs => some xs
            | _ => none
        match proceed with
        | none => ⟨stMid, false, true⟩
        | some toCur =>
          match bumpFirstItem itemJ toCur with
          | .error _ => ⟨stMid, false, true⟩
          | .ok bres =>
            let toFinal := match bres with
              | some l => l
              | none => toCur ++ [JVal.spreadClone itemJ]
            let invBase : List (String × JVal) :=
              match inv with
              | .obj fs => JVal.setField fs fromK (.arr pruned)
              | _ => [(fromK, .arr pruned)]
            let invFinal : JVal := .obj
              (if toK = fromK then JVal.setField invBase fromK (.arr toFinal)
               else JVal.setField invBase toK (.arr toFinal))
            match st.write "inventories" invFinal with
            | .ok stOut => ⟨stOut, true, false⟩
            | .error _ => ⟨stMid, false, true⟩
  | _, _ => ⟨st, false, true⟩

/-- Embedding of `ConflictResolver.resolveTransfer` (lines 38-58): type and
    authority checks, sender/receiver array extraction with `?? []`
    defaults, the `findIndex` guard, then `resolveTransferApply`. -/
def resolveTransfer (mode : Mode) (authId : Option PlayerId) (st msg : JVal) : ROut :=
  match msg.read "t" with
  | .error _ => ⟨st, false, true⟩
  | .ok tv =>
    match tv with
    | some (.str "transfer") =>
      match msg.read "from", msg.read "to", msg.read "item" with
      | .ok fromv, .ok tov, .ok itemv =>
        if gateRejects mode authId fromv then ⟨st, false, false⟩
        else
          let itemJ := itemv.getD .undef
          match st.read "inventories" with
          | .error _ => ⟨st, false, true⟩
          | .ok invO =>
            let inv := invO.getD .undef
            let fromK := JVal.propKey fromv
            let toK := JVal.propKey tov
            match inv.read fromK, inv.read toK with
            | .ok fromO, .ok toO =>
              let fromRaw := if JVal.nullish fromO then .arr [] else fromO.getD .undef
              let toRaw := if JVal.nullish toO then .arr [] else toO.getD .undef
              match fromRaw with
              | .arr fromItems =>
                (match findItemIdx itemJ fromItems 0 with
                 | .error _ => ⟨st, false, true⟩
                 | .ok none => ⟨st, false, false⟩
                 | .ok (some idx) =>
                   resolveTransferApply st inv fromK toK itemJ fromItems toRaw idx)
              | _ => ⟨st, false, true⟩
            | _, _ => ⟨st, false, true⟩
      | _, _, _ => ⟨st, false, true⟩
    | _ => ⟨st, false, false⟩

/-- Whether an inventory entry is a well-formed item record as the transfer
    claim presumes: a JS object with a string `id` and a numeric
    `quantity`. -/
def wfItem (v : JVal) : Bool :=
  match v with
  | .obj fs =>
    (match JVal.lookup fs "id" with
     | some (.str _) => true
     | _ => false) &&
    (match JVal.lookup fs "quantity" with
     | some (.num _) => true
     | _ => false)
  | _ => false

/-- The `id` of an inventory entry, when it is a string. -/
def itemIdOf (v : JVal) : Option String :=
  match v with
  | .obj fs =>
    match JVal.lookup fs "id" with
    | some (.str s) => some s
    | _ => none
  | _ => none

/-- The `quantity` of an inventory entry, when it is a number. -/
def itemQtyOf (v : JVal) : Option ℚ :=
  match v with
  | .obj fs =>
    match JVal.lookup fs "quantity" with
    | some (.num q) => some q
    | _ => none
  | _ => none

/-- The receiver list produced by `inventories[to] ?? []`: a nullish entry
    gives the empty list, an array its elements, anything else is a value
    the later receiver scan throws on. -/
def recvItems (ifs : List (String × JVal)) (t : String) : Option (List JVal) :=
  match JVal.lookup ifs t with
  | none => some []
  | some .undef => some []
  | some .null => some []
  | some (.arr xs) => some xs
  | some _ => none

/-- The sender's list after a transfer of quantity `q` against the first
    matching entry `xfs` (found between `pre` and `post`): decremented in
    place and pruned when the new quantity is exactly zero. -/
def transferDecrement (pre : List JVal) (xfs : List (String × JVal))
    (post : List JVal) (q0 q : ℚ) : List JVal :=
  if q0 - q = 0 then pre ++ post
  else pre ++ .obj (JVal.setField xfs "quantity" (.num (q0 - q))) :: post

/-- Effect of the remote-players loop on the `players` record: every
    snapshot entry other than the local id is written over the base
    record in order. -/
def overwriteEntries (base : List (String × JVal)) (l : String) :
    List (String × JVal) → List (String × JVal)
  | [] => base
  | (pid, v) :: rest =>
    if pid = l then overwriteEntries base l rest
    else overwriteEntries (JVal.setField base pid v) l rest

/-- Effect of the remote-inventories loop on the `inventories` record:
    every non-local array entry is written over the base record as a list
    of shallow copies (the loop throws on a non-array entry before any
    write of that entry, so other shapes contribute nothing here). -/
def overwriteInvEntries (base : List (String × JVal)) (l : String) :
    List (String × JVal) → List (String × JVal)
  | [] => base
  | (pid, v) :: rest =>
    if pid = l then overwriteInvEntries base l rest
    else
      match v with
      | .arr xs =>
        overwriteInvEntries
          (JVal.setField base pid (.arr (xs.map JVal.spreadClone))) l rest
      | _ => overwriteInvEntries base l rest

/-- The `players[p]` entry of a replicated state value. -/
def playersOf (st : JVal) (p : String) : Option JVal :=
  match st with
  | .obj fs =>
    match JVal.lookup fs "players" with
    | some (.obj ps) => JVal.lookup ps p
    | _ => none
  | _ => none

/-- The `inventories[p]` entry of a replicated state value. -/
def inventoriesOf (st : JVal) (p : String) : Option JVal :=
  match st with
  | .obj fs =>
    match JVal.lookup fs "inventories" with
    | some (.obj is) => JVal.lookup is p
    | _ => none
  | _ => none

/-- The `objects` field of a replicated state value. -/
def objectsOf (st : JVal) : Option JVal :=
  match st with
  | .obj fs => JVal.lookup fs "objects"
  | _ => none

/-- Embedding of JS `path.split(".")`: split on every dot, keeping empty
    segments (so `""` splits to `[""]` and `"a..b"` to `["a","","b"]`). -/
def splitDotAux : List Char → List Char → List String
  | [], acc => [String.mk acc.reverse]
  | c :: rest, acc =>
    if c = '.' then String.mk acc.reverse :: splitDotAux rest []
    else splitDotAux rest (c :: acc)

/-- JS `s.split(".")`. -/
def splitDot (s : String) : List String :=
  splitDotAux s.data []

/-- Path navigation of the delta applier (`ConflictResolver.applyDelta`
    lines 62-69 and `StateManager.setPathsValues`): walk the dot-separated
    segments, replacing a nullish intermediate with a fresh empty record
    (`cursor[seg] ?? (cursor[seg] = {})`), then overwrite the leaf with a
    deep copy of the value.  The error flag reports a strict-mode
    `TypeError` (write on a primitive); mutations performed before the
    throw are kept. -/
def setPathSegs : JVal → List String → JVal → JVal × Bool
  | root, [], _ => (root, false)
  | root, [last], v =>
    (match root.write last v with
     | .ok r => (r, false)
     | .error _ => (root, true))
  | root, seg :: rest, v =>
    match root.read seg with
    | .error _ => (root, true)
    | .ok cur =>
      if JVal.nullish cur then
        match root.write seg (.obj []) with
        | .error _ => (root, true)
        | .ok root1 =>
          let (child, e) := setPathSegs (.obj []) rest v
          (match root1.write seg child with
           | .ok r => (r, e)
           | .error _ => (root1, true))
      else
        let (child, e) := setPathSegs (cur.getD .undef) rest v
        (match root.write seg child with
         | .ok r => (r, e)
         | .error _ => (root, true))

/-- The `for (const change of delta.changes)` loop: read `change.path`
    (throws on a nullish change or a non-string path, since `.split` is
    then not a function), split on dots, apply; stop at the first thrown
    error, keeping earlier changes. -/
def applyChanges (st : JVal) : List JVal → JVal × Bool
  | [] => (st, false)
  | c :: rest =>
    match c.read "path" with
    | .error _ => (st, true)
    | .ok pv =>
      match pv with
      | some (.str p) =>
        let vres := match c.read "value" with
          | .ok v => v.getD .undef
          | .error _ => .undef
        let (st1, e) := setPathSegs st (splitDot p) vres
        if e then (st1, true) else applyChanges st1 rest
      | _ => (st, true)

/-- Embedding of `ConflictResolver.applyDelta` (lines 60-72): apply the
    changes, then `current.tick = Math.max(current.tick, delta.tick)`.
    Iterating a non-array `changes` (or a string, whose first element
    throws on `.path.split`) aborts before any mutation. -/
def applyDelta (st delta : JVal) : JVal × Bool :=
  match delta.read "changes" with
  | .error _ => (st, true)
  | .ok chv =>
    match chv with
    | some (.arr cs) =>
      let (st1, e) := applyChanges st cs
      if e then (st1, true)
      else
        match st1.read "tick" with
        | .error _ => (st1, true)
        | .ok t0 =>
          match delta.read "tick" with
          | .error _ => (st1, true)
          | .ok dt =>
            (match st1.write "tick" (JVal.jsMax (t0.getD .undef) (dt.getD .undef)) with
             | .ok r => (r, false)
             | .error _ => (st1, true))
    | _ => (st, true)

/-- The remote-players loop of `applyFullState`: overwrite
    `state.players[pid]` with a deep copy of the snapshot entry for every
    `pid` other than the local id. -/
def copyPlayers (localId : Option PlayerId) : JVal → List (String × JVal) → JVal × Bool
  | st, [] => (st, false)
  | st, (pid, ps) :: rest =>
    if localId = some pid then copyPlayers localId st rest
    else
      match st.read "players" with
      | .error _ => (st, true)
      | .ok pl =>
        match (pl.getD .undef).write pid ps with
        | .error _ => (st, true)
        | .ok pl2 =>
          match st.write "players" pl2 with
          | .ok st2 => copyPlayers localId st2 rest
          | .error _ => (st, true)

/-- The remote-inventories loop of `applyFullState`: overwrite
    `state.inventories[pid]` with `items.map(it => ({...it}))` for every
    `pid` other than the local id; a non-array `items` throws. -/
def copyInventories (localId : Option PlayerId) : JVal → List (String × JVal) → JVal × Bool
  | st, [] => (st, false)
  | st, (pid, items) :: rest =>
    if localId = some pid then copyInventories localId st rest
    else
      match items with
      | .arr xs =>
        (match st.read "inventories" with
         | .error _ => (st, true)
         | .ok inv =>
           match (inv.getD .undef).write pid (.arr (xs.map JVal.spreadClone)) with
           | .error _ => (st, true)
           | .ok inv2 =>
             match st.write "inventories" inv2 with
             | .ok st2 => copyInventories localId st2 rest
             | .error _ => (st, true))
      | _ => (st, true)

/-- Whether `map.get(k) === undefined` holds for the modelled
    `lastAppliedSeq` map. -/
def seqAbsent (lastSeq : List (String × JVal)) (k : String) : Bool :=
  match JVal.lookup lastSeq k with
  | none => true
  | some .undef => true
  | some _ => false

/-- The `if (localIncoming) { state.players[localId] = localIncoming; }`
    adoption step of `applyFullState`'s initial-join branch. -/
def joinAdoptPlayer (l : String) (st : JVal) (localIncoming : Option JVal) :
    JVal × Bool :=
  if JVal.truthy (localIncoming.getD .undef) then
    match st.read "players" with
    | .error _ => (st, true)
    | .ok pl =>
      match (pl.getD .undef).write l (localIncoming.getD .undef) with
      | .error _ => (st, true)
      | .ok pl2 =>
        (match st.write "players" pl2 with
         | .ok st2 => (st2, false)
         | .error _ => (st, true))
  else (st, false)

/-- The `if (localInv) { state.inventories[localId] = localInv.map(...) }`
    adoption step of `applyFullState`'s initial-join branch (a truthy
    non-array value throws in `.map`). -/
def joinAdoptInventory (l : String) (st : JVal) (localInv : Option JVal) :
    JVal × Bool :=
  if JVal.truthy (localInv.getD .undef) then
    match localInv with
    | some (.arr xs) =>
      (match st.read "inventories" with
       | .error _ => (st, true)
       | .ok inv =>
         match (inv.getD .undef).write l (.arr (xs.map JVal.spreadClone)) with
         | .error _ => (st, true)
         | .ok inv2 =>
           (match st.write "inventories" inv2 with
            | .ok st2 => (st2, false)
            | .error _ => (st, true)))
    | _ => (st, true)
  else (st, false)

/-- The initial-join branch of `applyFullState`: when the local id is truthy
    and `lastAppliedSeq` has no entry for it, adopt the snapshot's entries
    for the local player as well (when present and truthy). -/
def applyLocalJoin (localId : Option PlayerId) (lastSeq : List (String × JVal))
    (st incoming : JVal) : JVal × Bool :=
  match localId with
  | none => (st, false)
  | some l =>
    if l = "" ∨ ¬ seqAbsent lastSeq l then (st, false)
    else
      match incoming.read "players" with
      | .error _ => (st, true)
      | .ok ipl =>
        match (ipl.getD .undef).read l with
        | .error _ => (st, true)
        | .ok localIncoming =>
          let r1 := joinAdoptPlayer l st localIncoming
          if r1.2 then (r1.1, true)
          else
            match incoming.read "inventories" with
            | .error _ => (r1.1, true)
            | .ok iinv =>
              match (iinv.getD .undef).read l with
              | .error _ => (r1.1, true)
              | .ok localInv => joinAdoptInventory l r1.1 localInv

/-- Embedding of `StateManager.applyFullState` (src/sync/StateManager.ts
    lines 63-87): overwrite every remote player's entries with deep copies
    of the snapshot, adopt the local entries only on initial join/rejoin
    (no `lastAppliedSeq` entry for the local id), replace `objects`
    wholesale, and raise `tick` to the max of old and incoming. -/
def applyFullState (localId : Option PlayerId) (lastSeq : List (String × JVal))
    (st incoming : JVal) : JVal × Bool :=
  match incoming.read "players" with
  | .error _ => (st, true)
  | .ok ipv =>
    match JVal.entries ipv with
    | .error _ => (st, true)
    | .ok ip =>
      let (st1, e1) := copyPlayers localId st ip
      if e1 then (st1, true)
      else
        match incoming.read "inventories" with
        | .error _ => (st1, true)
        | .ok iiv =>
          match JVal.entries iiv with
          | .error _ => (st1, true)
          | .ok ii =>
            let (st2, e2) := copyInventories localId st1 ii
            if e2 then (st2, true)
            else
              let (st3, e3) := applyLocalJoin localId lastSeq st2 incoming
              if e3 then (st3, true)
              else
                match incoming.read "objects" with
                | .error _ => (st3, true)
                | .ok ov =>
                  match st3.write "objects" (ov.getD .undef) with
                  | .error _ => (st3, true)
                  | .ok st4 =>
                    match st4.read "tick", incoming.read "tick" with
                    | .ok t0, .ok ti =>
                      (match st4.write "tick"
                          (JVal.jsMax (t0.getD .undef) (ti.getD .undef)) with
                       | .ok st5 => (st5, false)
                       | .error _ => (st4, true))
                    | _, _ => (st4, true)

/-- Path reader of `StateManager.getPathValue`: walk the segments with the
    `cursor === undefined ? undefined : cursor[seg]` guard (a `null` cursor
    still throws) and deep-copy the final cursor. -/
def getPathValue (st : JVal) (path : String) : Except Unit JVal :=
  go (some st) (splitDot path)
where
  go : Option JVal → List String → Except Unit JVal
  | cur, [] => .ok (cur.getD .undef)
  | none, _ :: rest => go none rest
  | some .undef, _ :: rest => go none rest
  | some v, seg :: rest =>
    match v.read seg with
    | .error _ => .error ()
    | .ok nxt => go nxt rest

/-- A delta as returned by `buildDeltaFromPaths`. -/
structure BuiltDelta where
  tick : JVal
  changes : List (String × JVal)

/-- Embedding of `StateManager.buildDeltaFromPaths` (lines 139-142): deep
    copies of the current values at the requested paths, then an atomic
    `++this.state.tick` that is both stored and used as the delta's tick. -/
def buildDeltaFromPaths (st : JVal) (paths : List String) :
    JVal × Option BuiltDelta × Bool :=
  match paths.mapM (getPathValue st) with
  | .error _ => (st, none, true)
  | .ok vals =>
    let chs := paths.zip vals
    match st.read "tick" with
    | .error _ => (st, none, true)
    | .ok t0 =>
      let newt : JVal := match JVal.toNumber (t0.getD .undef) with
        | some q => .num (q + 1)
        | none => .nan
      match st.write "tick" newt with
      | .ok st2 => (st2, some ⟨newt, chs⟩, false)
      | .error _ => (st, none, true)

/-- State owned by the state manager: the replicated `GlobalGameState`
    object and the per-sender `lastAppliedSeq` map. -/
structure MState where
  g : JVal
  lastSeq : List (String × JVal)

/-- The `GlobalGameState` the state manager is constructed with. -/
def initialState : MState :=
  ⟨.obj [("players", .obj []), ("inventories", .obj []), ("objects", .obj []),
    ("tick", .num 0)], []⟩

/-- The sender key used by the sequence gate (`msg.from`, a string for
    every validated envelope). -/
def fromKeyOf (msg : JVal) : String :=
  match JVal.getProp msg "from" with
  | some (.str f) => f
  | _ => ""

/-- The value `lastAppliedSeq.get(msg.from) ?? -1` read by the gate. -/
def seqLastOf (s : MState) (f : String) : JVal :=
  let lraw := JVal.lookup s.lastSeq f
  if JVal.nullish lraw then JVal.num (-1) else (lraw.getD .undef)

/-- The per-sender sequence gate of `handleNetMessage` (lines 105-110):
    `none` means the envelope is dropped as stale/duplicate, otherwise the
    possibly-updated state is returned. -/
def seqGate (s : MState) (msg : JVal) : Option MState :=
  match JVal.getProp msg "seq" with
  | none => some s
  | some .undef => some s
  | some v =>
    if JVal.jsLe v (seqLastOf s (fromKeyOf msg)) then none
    else some { s with lastSeq := JVal.setField s.lastSeq (fromKeyOf msg) v }

/-- The `switch (msg.t)` dispatch of `handleNetMessage` (lines 111-136). -/
def smDispatch (mode : Mode) (authId : Option PlayerId)
    (localId : Option PlayerId) (s1 : MState) (msg : JVal) : MState × Bool :=
  let t := match JVal.getProp msg "t" with
    | some (.str t) => t
    | _ => ""
  match t with
  | "move" =>
    let r := resolveMove mode authId s1.g msg
    ({ s1 with g := r.st }, r.err)
  | "inventory" =>
    let r := resolveInventory mode authId s1.g msg
    ({ s1 with g := r.st }, r.err)
  | "transfer" =>
    let r := resolveTransfer mode authId s1.g msg
    ({ s1 with g := r.st }, r.err)
  | "state_full" =>
    let r := applyFullState localId s1.lastSeq s1.g ((JVal.getProp msg "state").getD .undef)
    ({ s1 with g := r.1 }, r.2)
  | "state_delta" =>
    let r := applyDelta s1.g ((JVal.getProp msg "delta").getD .undef)
    ({ s1 with g := r.1 }, r.2)
  | _ => (s1, false)

/-- Embedding of `StateManager.handleNetMessage` (lines 94-137): structural
    validation, the per-sender sequence gate (`last = lastAppliedSeq[from]
    ?? -1`; drop when `seq <= last`, else record `seq`), then dispatch on
    the message type.  The boolean reports a propagated `TypeError`. -/
def handleNetMessage (mode : Mode) (authId : Option PlayerId)
    (localId : Option PlayerId) (s : MState) (msg : JVal) : MState × Bool :=
  if ¬ isValidNetMessage msg then (s, false)
  else
    match seqGate s msg with
    | none => (s, false)
    | some s1 => smDispatch mode authId localId s1 msg

/-- Strict lexicographic comparison of character sequences by code unit,
    the semantics of JS `<` on strings (for the basic-plane ids exercised
    here, code-unit and code-point order coincide). -/
def charsLt : List Char → List Char → Bool
  | [], [] => false
  | [], _ :: _ => true
  | _ :: _, [] => false
  | c :: cs, d :: ds =>
    if c.toNat < d.toNat then true
    else if d.toNat < c.toNat then false
    else charsLt cs ds

/-- JS string comparison `a < b`. -/
def strLt (a b : String) : Bool :=
  charsLt a.data b.data

/-- The `^\d+$` test of `PeerManager.comparePlayerIds`. -/
def digitOnly (s : String) : Bool :=
  s ≠ "" && s.data.all Char.isDigit

/-- Numeric value of a digit-only id (`BigInt(a)`, arbitrary precision). -/
def natVal (s : String) : ℕ :=
  s.data.foldl (fun acc c => acc * 10 + (c.toNat - '0'.toNat)) 0

/-- Embedding of `PeerManager.comparePlayerIds` (src/net/PeerManager.ts,
    dual-channel variant): digit-only ids compare as big integers with a
    raw-string tie-break, all other pairs by plain string order (JS `<` on
    strings; for the ASCII ids exercised here this coincides with Lean's
    `String` order). -/
def comparePlayerIds (a b : PlayerId) : Int :=
  if digitOnly a && digitOnly b then
    if natVal a ≠ natVal b then (if natVal a < natVal b then -1 else 1)
    else if strLt a b then -1 else if strLt b a then 1 else 0
  else if strLt a b then -1 else if strLt b a then 1 else 0

/-- The `reduce` of `PeerManager.electHost` over `[localId, ...peerIds]`. -/
def electWinner (localId : PlayerId) (peers : List PlayerId) : PlayerId :=
  peers.foldl (fun m id => if comparePlayerIds id m < 0 then id else m) localId

/-- The slice of `PeerManager` state relevant to host election: the
    insertion-ordered keys of the `peers` map and the current `hostId`. -/
structure PMState where
  peers : List PlayerId
  hostId : Option PlayerId
deriving DecidableEq

/-- `Map.set` key effect: keep an existing key's slot, append a new key. -/
def addPeerKey (l : List PlayerId) (p : PlayerId) : List PlayerId :=
  if p ∈ l then l else l ++ [p]

/-- Embedding of `PeerManager.electHost` (lines 350-357): fold the pairwise
    comparison over local and peer ids and install the winner (the
    `hostChange` emission is value-irrelevant here). -/
def electHost (localId : PlayerId) (s : PMState) : PMState :=
  let newHost := electWinner localId s.peers
  if s.hostId = some newHost then s else { s with hostId := some newHost }

/-- Topology events of the peer manager that touch `peers`/`hostId`:
    `connected` is the connection-state handler promoting a peer and
    re-electing; `promoted` is the answer handler moving a pending
    initiator into `peers` and re-electing; `dropped` is the
    disconnected/failed/closed handler (re-election only when the host
    itself left); `roster` is the roster handler, which evicts absent
    peers without re-electing. -/
inductive PMEvent where
  | connected (p : PlayerId)
  | promoted (p : PlayerId)
  | dropped (p : PlayerId)
  | roster (ids : List PlayerId)

/-- One transition of the peer manager's election-relevant state. -/
def pmStep (localId : PlayerId) (s : PMState) : PMEvent → PMState
  | .connected p =>
    if p = localId then s
    else electHost localId { s with peers := addPeerKey s.peers p }
  | .promoted p => electHost localId { s with peers := addPeerKey s.peers p }
  | .dropped p =>
    let s1 := { s with peers := s.peers.erase p }
    if s.hostId = some p then electHost localId { s1 with hostId := none } else s1
  | .roster ids => { s with peers := s.peers.filter (· ∈ ids) }

/-- A run of the peer manager from construction (`peers` empty, `hostId`
    undefined). -/
def pmRun (localId : PlayerId) (events : List PMEvent) : PMState :=
  events.foldl (pmStep localId) ⟨[], none⟩

/-- Whether the current `hostId` is a least element of
    `{localId} ∪ peerIds` under `comparePlayerIds` (the §4.7 claim). -/
def hostIsLeast (localId : PlayerId) (s : PMState) : Bool :=
  match s.hostId with
  | none => false
  | some h =>
    decide (h ∈ localId :: s.peers) &&
      (localId :: s.peers).all fun x => comparePlayerIds h x ≤ 0

/-- The `m.t === tag && typeof m.ts === "number"` test of the ping/pong
    branches of `onMessage`. -/
def hasCtlTag (m : JVal) (tag : String) : Bool :=
  match JVal.getProp m "t" with
  | some (.str s) => s = tag && JVal.typeofNumber (JVal.getProp m "ts")
  | _ => false

/-- An inbound data-channel frame after the transport layer: a text frame
    carries the outcome of `JSON.parse` (`none` when parsing threw), a
    binary frame the outcome of `serializer.decode`. -/
inductive Inbound where
  | text (parsed : Option JVal)
  | binary (decoded : Option JVal)

/-- Embedding of `PeerManager.onMessage` (dual-channel variant, lines
    363-405), restricted to its `netMessage` output: parse failures and
    non-objects are dropped, `ping`/`pong` frames are consumed internally,
    and every emitted envelope first has its `from` field overwritten with
    the transport peer id.  A parsed JSON array would also be delivered
    with a `from` property attached; arrays cannot carry extra properties
    in this model and no JSON array envelope satisfies the claims, so they
    are modelled as dropped. -/
def onMessageEmit (pid : PlayerId) (frame : Inbound) : Option JVal :=
  match frame with
  | .text none => none
  | .text (some m) =>
    if ¬ JVal.truthy m ∨ ¬ m.isObjectType then none
    else if hasCtlTag m "ping" then none
    else if hasCtlTag m "pong" then none
    else
      match m with
      | .obj fs => some (.obj (JVal.setField fs "from" (.str pid)))
      | _ => none
  | .binary none => none
  | .binary (some m) =>
    match m with
    | .obj fs => some (.obj (JVal.setField fs "from" (.str pid)))
    | _ => none

/-- A subscriber of the event bus, abstracted to its identity and to
    whether its callback throws when invoked. -/
structure Listener where
  lid : ℕ
  throws : Bool
deriving DecidableEq

/-- `EventBus.on`: JS `Set.add` keeps an already-present member's slot and
    appends a new one. -/
def busOn (ls : List Listener) (l : Listener) : List Listener :=
  if ls.any (·.lid = l.lid) then ls else ls ++ [l]

/-- Embedding of `EventBus.emit` (src/events/EventBus.ts lines 22-27): the
    `Set.forEach` delivery in insertion order.  There is no try/catch, so
    an exception thrown by a listener propagates and ends the iteration;
    the result is the list of invoked listener ids and whether an exception
    escaped. -/
def emitRun : List Listener → List ℕ × Bool
  | [] => ([], false)
  | l :: rest =>
    if l.throws then ([l.lid], true)
    else
      let (ids, e) := emitRun rest
      (l.lid :: ids, e)

/-- The codec implemented by a serializer returned by `createSerializer`. -/
inductive SerializerKind where
  | json : SerializerKind
  | binaryMin : SerializerKind
deriving DecidableEq

/-- A constructed serializer, abstracted to its codec. -/
structure Serializer where
  kind : SerializerKind
deriving DecidableEq

/-- Embedding of `createSerializer` (src/net/serialization.ts): `"json"`
    and `"binary-min"` return their codecs; any other strategy falls
    through to the trailing `return` (the comment "json+gzip would require
    a gzip impl; leave as json for now") and yields the JSON text codec.
    The `Except` result models a possible constructor throw; no branch of
    the source throws. -/
def createSerializer (strategy : String) : Except String Serializer :=
  if strategy = "json" then .ok ⟨.json⟩
  else if strategy = "binary-min" then .ok ⟨.binaryMin⟩
  else .ok ⟨.json⟩

/-- The tick of the replicated state object, when it is a number. -/
def tickOf (st : JVal) : Option ℚ :=
  match st with
  | .obj fs =>
    match JVal.lookup fs "tick" with
    | some (.num n) => some n
    | _ => none
  | _ => none

/-- Whether ToNumber of a value is a number (not NaN). -/
def jsNumeric (v : JVal) : Bool :=
  (JVal.toNumber v).isSome

/-- Whether a single delta change leaves the root `tick` field alone: its
    `path` is not the single segment `tick` (changes that are malformed
    throw before writing anything and are harmless to `tick`). -/
def changeOkForTick (c : JVal) : Bool :=
  match c with
  | .obj fs =>
    match JVal.lookup fs "path" with
    | some (.str p) => decide (splitDot p ≠ ["tick"])
    | _ => true
  | _ => true

/-- Whether a delta message is benign for tick monotonicity: none of its
    changes addresses the root `tick` path and its own `tick` field is
    numeric (a delta that is not an object with an array of changes throws
    before mutating anything). -/
def deltaOkForTick (d : JVal) : Bool :=
  match d with
  | .obj fs =>
    match JVal.lookup fs "changes" with
    | some (.arr cs) =>
      cs.all changeOkForTick &&
        (match JVal.lookup fs "tick" with
         | some v => jsNumeric v
         | none => false)
    | _ => true
  | _ => true

/-- Whether a snapshot is benign for tick monotonicity: its `tick` field is
    numeric (a non-object snapshot throws before reaching the tick line). -/
def snapOkForTick (inc : JVal) : Bool :=
  match inc with
  | .obj fs =>
    match JVal.lookup fs "tick" with
    | some v => jsNumeric v
    | none => false
  | _ => true

/-- The operations quantified over by the tick-monotonicity claim: applying
    an incoming snapshot, applying an incoming delta, and building a local
    delta. -/
inductive SyncStep where
  | applySnapshot (localId : Option PlayerId) (lastSeq : List (String × JVal))
      (incoming : JVal)
  | applyDeltaMsg (delta : JVal)
  | buildDelta (paths : List String)

/-- State effect of one sync operation. -/
def syncExec (st : JVal) : SyncStep → JVal
  | .applySnapshot l q inc => (applyFullState l q st inc).1
  | .applyDeltaMsg d => (applyDelta st d).1
  | .buildDelta ps => (buildDeltaFromPaths st ps).1

/-- A sequence of sync operations applied to the replicated state. -/
def syncRun (st : JVal) (steps : List SyncStep) : JVal :=
  steps.foldl syncExec st

/-- Benign-for-tick condition of one sync operation. -/
def okSyncStep : SyncStep → Bool
  | .applySnapshot _ _ inc => snapOkForTick inc
  | .applyDeltaMsg d => deltaOkForTick d
  | .buildDelta _ => true

/-- A player position as used by `MovementSystem.resolveCollisions`: the
    `z` coordinate is optional and read through `?? 0`.  Coordinates are
    modelled over `ℝ` because the source computes with `Math.sqrt`. -/
structure Pos3 where
  x : ℝ
  y : ℝ
  z : Option ℝ

/-- The `eps` constant of `resolveCollisions` (`const eps = 1e-6`). -/
noncomputable def collisionEps : ℝ := 1e-6

/-- One iteration of the inner collision loop (`MovementSystem.ts` lines
    84-110): sphere-vs-sphere test on the squared distance and symmetric
    separation by half the overlap along the normalized direction, with the
    `(1,0,0)` axis fallback when the distance is below `eps`. -/
noncomputable def resolvePairStep (r : ℝ) (a b : Pos3) : Pos3 × Pos3 :=
  let az := a.z.getD 0
  let bz := b.z.getD 0
  let dx := b.x - a.x
  let dy := b.y - a.y
  let dz := bz - az
  let distSq := dx * dx + dy * dy + dz * dz
  let minDist := r * 2
  if distSq < minDist * minDist then
    let dist := Real.sqrt distSq
    let overlap := (minDist - max collisionEps dist) / 2
    let n : ℝ × ℝ × ℝ :=
      if dist < collisionEps then (1, 0, 0) else (dx / dist, dy / dist, dz / dist)
    (⟨a.x - n.1 * overlap, a.y - n.2.1 * overlap, some (az - n.2.2 * overlap)⟩,
     ⟨b.x + n.1 * overlap, b.y + n.2.1 * overlap, some (bz + n.2.2 * overlap)⟩)
  else (a, b)

/-- The inner `j` loop of `resolveCollisions`: pit player `i` against every
    later player in order, threading the in-place updates. -/
noncomputable def resolveAgainstRest (r : ℝ) (a : Pos3) :
    List Pos3 → Pos3 × List Pos3
  | [] => (a, [])
  | b :: tl =>
    let (a1, b1) := resolvePairStep r a b
    let (a2, tl2) := resolveAgainstRest r a1 tl
    (a2, b1 :: tl2)

/-- Embedding of `MovementSystem.resolveCollisions` (lines 79-113): the
    ordered double loop over player pairs with in-place position updates. -/
noncomputable def resolveCollisions (r : ℝ) : List Pos3 → List Pos3
  | [] => []
  | a :: rest =>
    (resolveAgainstRest r a rest).1 :: resolveCollisions r (resolveAgainstRest r a rest).2
termination_by l => l.length
decreasing_by
  have hlen : ∀ (l : List Pos3) (a : Pos3),
      ((resolveAgainstRest r a l).2).length = l.length := by
    intro l
    induction l with
    | nil => intro a; simp [resolveAgainstRest]
    | cons b tl ih => intro a; simp [resolveAgainstRest, ih]
  simp [hlen]

/-- Euclidean distance between two positions with missing `z` read as 0,
    the measure quantified over by the collision claim. -/
noncomputable def dist3 (a b : Pos3) : ℝ :=
  Real.sqrt ((b.x - a.x) * (b.x - a.x) + (b.y - a.y) * (b.y - a.y) +
    (b.z.getD 0 - a.z.getD 0) * (b.z.getD 0 - a.z.getD 0))

/-- Whether every recorded `lastAppliedSeq` value is a number (always true
    for states reachable from construction under numeric sequence fields). -/
def lastSeqNums (s : MState) : Bool :=
  s.lastSeq.all fun kv => match kv.2 with
    | .num _ => true
    | _ => false

/-- Whether an envelope's `seq` field, when present, is a number (the
    declared type of the field). -/
def seqNumOnly (m : JVal) : Bool :=
  match JVal.getProp m "seq" with
  | none => true
  | some .undef => true
  | some (.num _) => true
  | _ => false

/-- The sender/sequence pair an envelope records, when the gate accepts it. -/
def acceptedSeqOf (s : MState) (msg : JVal) : Option (String × ℚ) :=
  if isValidNetMessage msg then
    match JVal.getProp msg "seq" with
    | some (.num q) =>
      if JVal.jsLe (.num q) (seqLastOf s (fromKeyOf msg)) then none
      else some (fromKeyOf msg, q)
    | _ => none
  else none

/-- The numeric sequence recorded for sender `f` (-1 when absent). -/
def lastNum (s : MState) (f : String) : ℚ :=
  match JVal.lookup s.lastSeq f with
  | some (.num l) => l
  | _ => -1

/-- The sequence numbers of the envelopes from sender `f` accepted by the
    gate over a run of `handleNetMessage`, in processing order. -/
def acceptedSeqList (mode : Mode) (authId localId : Option PlayerId) (f : String) :
    MState → List JVal → List ℚ
  | _, [] => []
  | s, m :: rest =>
    let s1 := (handleNetMessage mode authId localId s m).1
    match acceptedSeqOf s m with
    | some fq =>
      if fq.1 = f then fq.2 :: acceptedSeqList mode authId localId f s1 rest
      else acceptedSeqList mode authId localId f s1 rest
    | none => acceptedSeqList mode authId localId f s1 rest

/-- The invariant maintained by the election-triggering transitions: all
    peers are digit-only, and either no election has happened yet (host
    unset, no peers) or the host is a least id. -/
def pmInv (lid : PlayerId) (s : PMState) : Prop :=
  (∀ p ∈ s.peers, digitOnly p = true) ∧
    ((s.hostId = none ∧ s.peers = []) ∨ hostIsLeast lid s = true)

/-- Election-triggering events with digit-only ids, the scope of the
    amended claim: roster updates are excluded (they evict without
    re-electing). -/
def electionDigitEvent : PMEvent → Bool
  | .connected p => digitOnly p
  | .promoted p => digitOnly p
  | .dropped _ => true
  | .roster _ => false

/-- The inner loop touches every later player exactly once, so it preserves
    the number of players. -/
theorem resolveAgainstRest_length (r : ℝ) :
    ∀ (l : List Pos3) (a : Pos3), ((resolveAgainstRest r a l).2).length = l.length := by
  intro l
  induction l with
  | nil => intro a; simp [resolveAgainstRest]
  | cons b tl ih => intro a; simp [resolveAgainstRest, ih]

namespace JVal

theorem lookup_setField_self (fs : List (String × JVal)) (k : String) (x : JVal) :
    lookup (setField fs k x) k = some x := by
  induction fs with
  | nil => simp [setField, lookup]
  | cons kv rest ih =>
    by_cases h : kv.1 = k
    · simp [setField, lookup, h]
    · simpa [setField, lookup, h] using ih

theorem lookup_setField_ne (fs : List (String × JVal)) (k k' : String) (x : JVal)
    (h : k' ≠ k) : lookup (setField fs k x) k' = lookup fs k' := by
  induction fs with
  | nil => simp [setField, lookup, h, Ne.symm h]
  | cons kv rest ih =>
    by_cases hk : kv.1 = k
    · subst hk
      simp [setField, lookup, Ne.symm h]
    · by_cases hk' : kv.1 = k'
      · subst hk'
        simp [setField, lookup, hk, h]
      · simpa [setField, lookup, hk, hk'] using ih

theorem setField_setField_self (fs : List (String × JVal)) (k : String) (x y : JVal) :
    setField (setField fs k x) k y = setField fs k y := by
  induction fs with
  | nil => simp [setField]
  | cons kv rest ih =>
    by_cases h : kv.1 = k
    · simp [setField, h]
    · simp [setField, h, ih]

end JVal

/-- Claim C9: the specification states that `createSerializer` throws for
    any strategy other than `"json"` and `"binary-min"` (a fatal
    configuration error at construction), and the repository's own test
    expects `createSerializer("unknown")` to throw; evaluating the code at
    that input instead returns the JSON fallback serializer normally. -/
theorem claim9_serializer_unknown_falls_back :
    createSerializer "unknown" = .ok ⟨.json⟩ := rfl

/-- Claim C8 counterexample: subscribe two listeners in order, the first of
    which throws when invoked.  `emit` invokes only the first listener and
    the exception escapes — the second subscribed listener is never
    invoked, contradicting the claim that an exception thrown by one
    listener does not prevent the remaining listeners from being invoked. -/
theorem claim8_counterexample :
    (busOn (busOn [] ⟨0, true⟩) ⟨1, false⟩).map Listener.lid = [0, 1] ∧
    emitRun (busOn (busOn [] ⟨0, true⟩) ⟨1, false⟩) = ([0], true) := by
  decide

/-- Claim C8 (amended): `emit` invokes listeners synchronously in
    subscription order, but an exception thrown by a listener propagates
    out of `emit` (there is no per-listener try/catch), so the invoked
    listeners are exactly the prefix of the subscription list up to and
    including the first throwing listener; when no listener throws, every
    listener is invoked in order and no exception escapes. -/
theorem claim8_emit_prefix_order (ls : List Listener) :
    (emitRun ls).1 =
      (ls.takeWhile (fun l => !l.throws)).map Listener.lid ++
        (((ls.dropWhile (fun l => !l.throws)).head?.map Listener.lid).toList) ∧
    (emitRun ls).2 = ls.any (·.throws) := by
  induction ls with
  | nil => simp [emitRun]
  | cons l rest ih =>
    by_cases h : l.throws
    · simp [emitRun, h, List.takeWhile, List.dropWhile]
    · simp only [emitRun, h, if_neg, Bool.not_false]
      constructor
      · simp [List.takeWhile, List.dropWhile, h, ih.1]
      · simp [List.any, h, ih.2]

/-- Claim C5: every envelope that `PeerManager.onMessage` delivers to
    `netMessage` subscribers carries the transport peer id in its `from`
    field, whatever `from` value the wire content claimed, on both the
    text (JSON string) path and the binary (ArrayBuffer) path. -/
theorem claim5_transport_identity_wins (pid : PlayerId) (frame : Inbound) (m : JVal)
    (h : onMessageEmit pid frame = some m) :
    JVal.getProp m "from" = some (.str pid) := by
  cases frame with
  | text parsed =>
    cases parsed with
    | none => simp [onMessageEmit] at h
    | some v =>
      cases v with
      | obj fs =>
        by_cases h2 : hasCtlTag (.obj fs) "ping"
        · simp [onMessageEmit, JVal.truthy, JVal.isObjectType, h2] at h
        · by_cases h3 : hasCtlTag (.obj fs) "pong"
          · simp [onMessageEmit, JVal.truthy, JVal.isObjectType, h2, h3] at h
          · simp [onMessageEmit, JVal.truthy, JVal.isObjectType, h2, h3] at h
            subst h
            simp [JVal.getProp, JVal.lookup_setField_self]
      | null => simp [onMessageEmit, JVal.truthy] at h
      | undef => simp [onMessageEmit, JVal.truthy] at h
      | num q => simp [onMessageEmit, JVal.isObjectType] at h
      | nan => simp [onMessageEmit, JVal.truthy] at h
      | str s => simp [onMessageEmit, JVal.isObjectType] at h
      | bool b => simp [onMessageEmit, JVal.isObjectType] at h
      | arr xs => simp [onMessageEmit, JVal.truthy, JVal.isObjectType, hasCtlTag, JVal.getProp] at h
  | binary decoded =>
    cases decoded with
    | none => simp [onMessageEmit] at h
    | some v =>
      cases v with
      | obj fs =>
        simp [onMessageEmit] at h
        subst h
        simp [JVal.getProp, JVal.lookup_setField_self]
      | null => simp [onMessageEmit] at h
      | undef => simp [onMessageEmit] at h
      | num q => simp [onMessageEmit] at h
      | nan => simp [onMessageEmit] at h
      | str s => simp [onMessageEmit] at h
      | bool b => simp [onMessageEmit] at h
      | arr xs => simp [onMessageEmit] at h

theorem smDispatch_lastSeq (mode : Mode) (authId localId : Option PlayerId)
    (s1 : MState) (msg : JVal) :
    (smDispatch mode authId localId s1 msg).1.lastSeq = s1.lastSeq := by
  simp only [smDispatch]
  split <;> rfl

theorem seqGate_stale (s : MState) (msg : JVal) (v : JVal)
    (hseq : JVal.getProp msg "seq" = some v)
    (hle : JVal.jsLe v (seqLastOf s (fromKeyOf msg)) = true) :
    seqGate s msg = none := by
  unfold seqGate
  rw [hseq]
  cases v <;> simp_all [JVal.jsLe, JVal.toNumber]

theorem seqGate_fresh (s : MState) (msg : JVal) (v : JVal)
    (hseq : JVal.getProp msg "seq" = some v) (hne : v ≠ .undef)
    (hle : JVal.jsLe v (seqLastOf s (fromKeyOf msg)) = false) :
    seqGate s msg =
      some { s with lastSeq := JVal.setField s.lastSeq (fromKeyOf msg) v } := by
  unfold seqGate
  rw [hseq]
  cases v <;> simp_all

theorem lookup_mem {l : List (String × JVal)} {k : String} {v : JVal}
    (h : JVal.lookup l k = some v) : (k, v) ∈ l := by
  induction l with
  | nil => simp [JVal.lookup] at h
  | cons kv rest ih =>
    cases kv with
    | mk k1 v1 =>
      by_cases hk : k1 = k
      · subst hk
        simp [JVal.lookup] at h
        simp [List.mem_cons, h]
      · simp only [JVal.lookup, hk, if_neg, if_false] at h
        exact .tail _ (ih h)

theorem seqLastOf_eq_num {s : MState} (f : String) (hs : lastSeqNums s = true) :
    seqLastOf s f = .num (lastNum s f) := by
  unfold seqLastOf lastNum
  cases hlk : JVal.lookup s.lastSeq f with
  | none => simp [JVal.nullish]
  | some v =>
    have hmem := lookup_mem hlk
    have := (List.all_eq_true.mp hs) _ hmem
    cases v <;> simp_all [JVal.nullish]

theorem lastSeqNums_setField {s : List (String × JVal)} (f : String) (q : ℚ)
    (hs : (MState.mk g s).lastSeq.all (fun kv => match kv.2 with
      | .num _ => true | _ => false) = true) :
    (JVal.setField s f (.num q)).all (fun kv => match kv.2 with
      | .num _ => true | _ => false) = true := by
  simp only [MState.lastSeq] at hs
  induction s with
  | nil => simp [JVal.setField]
  | cons kv rest ih =>
    simp only [List.all_cons, Bool.and_eq_true] at hs
    by_cases hk : kv.1 = f
    · simp [JVal.setField, hk, hs.1, hs.2]
    · simp only [JVal.setField, hk, if_neg, if_false, List.all_cons,
        Bool.and_eq_true]
      exact ⟨hs.1, ih hs.2⟩

theorem seqGate_noSeq (s : MState) (msg : JVal)
    (hseq : JVal.getProp msg "seq" = none) : seqGate s msg = some s := by
  unfold seqGate
  rw [hseq]

theorem seqGate_seqUndef (s : MState) (msg : JVal)
    (hseq : JVal.getProp msg "seq" = some .undef) : seqGate s msg = some s := by
  unfold seqGate
  rw [hseq]

theorem handleNetMessage_valid (mode : Mode) (authId localId : Option PlayerId)
    (s : MState) (msg : JVal) (hv : isValidNetMessage msg = true) :
    handleNetMessage mode authId localId s msg =
      match seqGate s msg with
      | none => (s, false)
      | some s1 => smDispatch mode authId localId s1 msg := by
  unfold handleNetMessage
  simp [hv]

theorem handle_lastSeq_eq (mode : Mode) (authId localId : Option PlayerId)
    (s : MState) (msg : JVal) (hnum : seqNumOnly msg = true) :
    (handleNetMessage mode authId localId s msg).1.lastSeq =
      match acceptedSeqOf s msg with
      | some fq => JVal.setField s.lastSeq fq.1 (.num fq.2)
      | none => s.lastSeq := by
  unfold seqNumOnly at hnum
  by_cases hv : isValidNetMessage msg
  · rw [handleNetMessage_valid mode authId localId s msg hv]
    cases hseq : JVal.getProp msg "seq" with
    | none =>
      rw [seqGate_noSeq s msg hseq]
      simp [smDispatch_lastSeq, acceptedSeqOf, hv, hseq]
    | some v =>
      rw [hseq] at hnum
      cases v with
      | undef =>
        rw [seqGate_seqUndef s msg hseq]
        simp [smDispatch_lastSeq, acceptedSeqOf, hv, hseq]
      | num q =>
        by_cases hle : JVal.jsLe (.num q) (seqLastOf s (fromKeyOf msg)) = true
        · rw [seqGate_stale s msg _ hseq hle]
          simp [acceptedSeqOf, hv, hseq, hle]
        · rw [seqGate_fresh s msg _ hseq (fun h => JVal.noConfusion h)
            (by simpa using hle)]
          simp only [smDispatch_lastSeq]
          simp [acceptedSeqOf, hv, hseq, hle]
      | null => simp at hnum
      | nan => simp at hnum
      | str a => simp at hnum
      | bool b => simp at hnum
      | arr xs => simp at hnum
      | obj fs => simp at hnum
  · unfold handleNetMessage
    simp [hv, acceptedSeqOf]

theorem lastSeqNums_handle (mode : Mode) (authId localId : Option PlayerId)
    (s : MState) (msg : JVal) (hs : lastSeqNums s = true)
    (hnum : seqNumOnly msg = true) :
    lastSeqNums (handleNetMessage mode authId localId s msg).1 = true := by
  have h := handle_lastSeq_eq mode authId localId s msg hnum
  unfold lastSeqNums at hs ⊢
  rw [h]
  cases hacc : acceptedSeqOf s msg with
  | none => exact hs
  | some fq => exact lastSeqNums_setField (g := s.g) fq.1 fq.2 hs

theorem lastNum_handle (mode : Mode) (authId localId : Option PlayerId)
    (s : MState) (msg : JVal) (f : String) (hnum : seqNumOnly msg = true) :
    lastNum (handleNetMessage mode authId localId s msg).1 f =
      match acceptedSeqOf s msg with
      | some fq => if fq.1 = f then fq.2 else lastNum s f
      | none => lastNum s f := by
  have h := handle_lastSeq_eq mode authId localId s msg hnum
  unfold lastNum
  rw [h]
  cases hacc : acceptedSeqOf s msg with
  | none => rfl
  | some fq =>
    by_cases hf : fq.1 = f
    · subst hf
      simp [JVal.lookup_setField_self]
    · simp [JVal.lookup_setField_ne _ _ _ _ (Ne.symm hf), hf]

theorem acceptedSeqOf_gt {s : MState} {msg : JVal} {f : String} {q : ℚ}
    (hs : lastSeqNums s = true) (hacc : acceptedSeqOf s msg = some (f, q)) :
    lastNum s f < q := by
  unfold acceptedSeqOf at hacc
  by_cases hv : isValidNetMessage msg
  · simp only [hv, if_pos] at hacc
    cases hseq : JVal.getProp msg "seq" with
    | none => simp [hseq] at hacc
    | some v =>
      rw [hseq] at hacc
      cases v <;> simp_all
      rename_i q0
      obtain ⟨hle, hfk, hq⟩ := hacc
      rw [seqLastOf_eq_num (fromKeyOf msg) hs] at hle
      subst hfk
      subst hq
      simpa [JVal.jsLe, JVal.toNumber, not_le] using hle
  · simp [hv] at hacc

theorem accepted_chain (mode : Mode) (authId localId : Option PlayerId)
    (f : String) : ∀ (msgs : List JVal) (s : MState),
    lastSeqNums s = true → (∀ m ∈ msgs, seqNumOnly m = true) →
    (acceptedSeqList mode authId localId f s msgs).Chain' (· < ·) ∧
    ∀ x ∈ acceptedSeqList mode authId localId f s msgs, lastNum s f < x := by
  intro msgs
  induction msgs with
  | nil => simp [acceptedSeqList]
  | cons m rest ih =>
    intro s hs hall
    have hnum : seqNumOnly m = true := hall m (List.mem_cons_self m rest)
    have hall2 : ∀ x ∈ rest, seqNumOnly x = true :=
      fun x hx => hall x (List.mem_cons_of_mem m hx)
    have hs1 : lastSeqNums (handleNetMessage mode authId localId s m).1 = true :=
      lastSeqNums_handle mode authId localId s m hs hnum
    have hln := lastNum_handle mode authId localId s m f hnum
    obtain ⟨hc, hb⟩ := ih (handleNetMessage mode authId localId s m).1 hs1 hall2
    cases hacc : acceptedSeqOf s m with
    | none =>
      simp only [hacc] at hln
      refine ⟨?_, ?_⟩
      · simpa [acceptedSeqList, hacc] using hc
      · intro x hx
        rw [← hln]
        exact hb x (by simpa [acceptedSeqList, hacc] using hx)
    | some fq =>
      obtain ⟨f1, q⟩ := fq
      simp only [hacc] at hln
      by_cases hf : f1 = f
      · subst hf
        have hgt : lastNum s f1 < q := acceptedSeqOf_gt hs hacc
        simp only [if_pos rfl] at hln
        refine ⟨?_, ?_⟩
        · simp only [acceptedSeqList, hacc, if_pos]
          refine List.chain'_cons'.mpr ⟨?_, hc⟩
          intro y hy
          have hymem := List.mem_of_mem_head? hy
          have h2 := hb y hymem
          rw [hln] at h2
          exact h2
        · intro x hx
          simp only [acceptedSeqList, hacc, if_pos, List.mem_cons] at hx
          rcases hx with rfl | hx
          · exact hgt
          · have h2 := hb x hx
            rw [hln] at h2
            exact lt_trans hgt h2
      · simp only [if_neg hf] at hln
        refine ⟨?_, ?_⟩
        · simpa [acceptedSeqList, hacc, hf] using hc
        · intro x hx
          rw [← hln]
          exact hb x (by simpa [acceptedSeqList, hacc, hf] using hx)

/-- Claim C2: for every envelope handled by the state manager that carries
    a `seq` field, if `seq` is at most the last recorded sequence for its
    sender (default -1), the envelope is dropped leaving both the game
    state and `lastAppliedSeq` unchanged; otherwise `lastAppliedSeq[from]`
    is set to `seq`; consequently, over any run, the sequence numbers of
    the accepted envelopes from one sender form a strictly increasing
    sequence. -/
theorem claim2_seq_gate_monotone :
    (∀ (mode : Mode) (authId localId : Option PlayerId) (s : MState)
      (msg : JVal) (v : JVal),
      isValidNetMessage msg = true →
      JVal.getProp msg "seq" = some v → v ≠ .undef →
      (JVal.jsLe v (seqLastOf s (fromKeyOf msg)) = true →
        handleNetMessage mode authId localId s msg = (s, false)) ∧
      (JVal.jsLe v (seqLastOf s (fromKeyOf msg)) = false →
        (handleNetMessage mode authId localId s msg).1.lastSeq =
          JVal.setField s.lastSeq (fromKeyOf msg) v)) ∧
    (∀ (mode : Mode) (authId localId : Option PlayerId) (f : String)
      (s : MState) (msgs : List JVal),
      lastSeqNums s = true → (∀ m ∈ msgs, seqNumOnly m = true) →
      (acceptedSeqList mode authId localId f s msgs).Chain' (· < ·)) := by
  constructor
  · intro mode authId localId s msg v hvalid hseq hne
    constructor
    · intro hle
      unfold handleNetMessage
      rw [seqGate_stale s msg v hseq hle]
      simp [hvalid]
    · intro hle
      unfold handleNetMessage
      rw [seqGate_fresh s msg v hseq hne hle]
      simp [hvalid, smDispatch_lastSeq]
  · intro mode authId localId f s msgs hs hall
    exact (accepted_chain mode authId localId f msgs s hs hall).1

end P2Play

namespace P2Play

/-- Claim C2 witness: from the initial state, a move with `seq = -5` is
    dropped unchanged (the default last sequence is -1), and the accepted
    sequence numbers of a run of two fresh moves from `"P"` are strictly
    increasing. -/
theorem claim2_witness :
    handleNetMessage .timestamp none none initialState
        (.obj [("t", .str "move"), ("from", .str "P"), ("ts", .num 1),
          ("seq", .num (-5)),
          ("position", .obj [("x", .num 1), ("y", .num 2)])]) =
      (initialState, false) ∧
    (acceptedSeqList .timestamp none none "P" initialState
        [.obj [("t", .str "move"), ("from", .str "P"), ("ts", .num 1),
           ("seq", .num 1), ("position", .obj [("x", .num 1), ("y", .num 2)])],
         .obj [("t", .str "move"), ("from", .str "P"), ("ts", .num 2),
           ("seq", .num 2),
           ("position", .obj [("x", .num 3), ("y", .num 4)])]]).Chain' (· < ·) := by
  constructor
  · exact (claim2_seq_gate_monotone.1 .timestamp none none initialState
      (.obj [("t", .str "move"), ("from", .str "P"), ("ts", .num 1),
        ("seq", .num (-5)),
        ("position", .obj [("x", .num 1), ("y", .num 2)])])
      (.num (-5)) rfl rfl (fun h => JVal.noConfusion h)).1 rfl
  · exact claim2_seq_gate_monotone.2 .timestamp none none "P" initialState
      [.obj [("t", .str "move"), ("from", .str "P"), ("ts", .num 1),
         ("seq", .num 1), ("position", .obj [("x", .num 1), ("y", .num 2)])],
       .obj [("t", .str "move"), ("from", .str "P"), ("ts", .num 2),
         ("seq", .num 2), ("position", .obj [("x", .num 3), ("y", .num 4)])]]
      rfl (by decide)

theorem resolveMove_auth_rejects (a f : String) (st : JVal)
    (fs : List (String × JVal))
    (ht : JVal.lookup fs "t" = some (.str "move"))
    (hfrom : JVal.lookup fs "from" = some (.str f))
    (ha : a ≠ "") (hfa : f ≠ a) :
    resolveMove .authoritative (some a) st (.obj fs) = ⟨st, false, false⟩ := by
  unfold resolveMove resolveMoveCore
  simp [JVal.read, ht, hfrom, gateRejects, ha, hfa, Bind.bind, Except.bind,
    pure, Except.pure]

/-- Claim C10: a structurally valid move whose `seq` exceeds the sender's
    last recorded sequence has `lastAppliedSeq[from]` set to `seq` before
    dispatch, so when the authority gate then rejects it (authoritative
    mode, sender is not the authority) the game state is unchanged but the
    sequence number is still consumed, and handling the same envelope again
    drops it as stale. -/
theorem claim10_rejected_move_consumes_seq (a f : String)
    (localId : Option PlayerId) (s : MState) (msg : JVal) (q : ℚ)
    (hvalid : isValidNetMessage msg = true)
    (ht : JVal.getProp msg "t" = some (.str "move"))
    (hfrom : JVal.getProp msg "from" = some (.str f))
    (hseq : JVal.getProp msg "seq" = some (.num q))
    (ha : a ≠ "") (hfa : f ≠ a)
    (hfresh : JVal.jsLe (.num q) (seqLastOf s f) = false) :
    handleNetMessage .authoritative (some a) localId s msg =
      ({ s with lastSeq := JVal.setField s.lastSeq f (.num q) }, false) ∧
    handleNetMessage .authoritative (some a) localId
        { s with lastSeq := JVal.setField s.lastSeq f (.num q) } msg =
      ({ s with lastSeq := JVal.setField s.lastSeq f (.num q) }, false) := by
  cases msg with
  | obj fs =>
    have htl : JVal.lookup fs "t" = some (.str "move") := ht
    have hfl : JVal.lookup fs "from" = some (.str f) := hfrom
    have hkey : fromKeyOf (.obj fs) = f := by
      unfold fromKeyOf
      rw [hfrom]
    constructor
    · rw [handleNetMessage_valid _ _ _ _ _ hvalid,
        seqGate_fresh s _ _ hseq (fun h => JVal.noConfusion h) (hkey ▸ hfresh)]
      simp only [smDispatch, hkey]
      rw [show JVal.getProp (.obj fs) "t" = some (.str "move") from ht]
      simp only [resolveMove_auth_rejects a f _ fs htl hfl ha hfa]
    · have hstale : JVal.jsLe (.num q)
          (seqLastOf { s with lastSeq := JVal.setField s.lastSeq f (.num q) } f)
            = true := by
        unfold seqLastOf
        simp [JVal.lookup_setField_self, JVal.nullish, JVal.jsLe, JVal.toNumber]
      rw [handleNetMessage_valid _ _ _ _ _ hvalid,
        seqGate_stale _ _ _ hseq (hkey ▸ hstale)]
  | null => simp [JVal.getProp] at ht
  | undef => simp [JVal.getProp] at ht
  | num q2 => simp [JVal.getProp] at ht
  | nan => simp [JVal.getProp] at ht
  | str s2 => simp [JVal.getProp] at ht
  | bool b => simp [JVal.getProp] at ht
  | arr xs => simp [JVal.getProp] at ht

/-- Claim C10 witness: in authoritative mode with authority `"H"`, a fresh
    move from `"P"` with `seq = 3` is rejected by the gate yet consumes the
    sequence number, and its replay is dropped. -/
theorem claim10_witness :
    handleNetMessage .authoritative (some "H") none initialState
        (.obj [("t", .str "move"), ("from", .str "P"), ("ts", .num 1),
          ("seq", .num 3),
          ("position", .obj [("x", .num 1), ("y", .num 2)])]) =
      ({ initialState with
          lastSeq := JVal.setField initialState.lastSeq "P" (.num 3) }, false) := by
  exact (claim10_rejected_move_consumes_seq "H" "P" none initialState
    (.obj [("t", .str "move"), ("from", .str "P"), ("ts", .num 1),
      ("seq", .num 3), ("position", .obj [("x", .num 1), ("y", .num 2)])]) 3
    rfl rfl rfl rfl (by simp) (by simp) rfl).1

theorem charsLt_irrefl : ∀ l : List Char, charsLt l l = false := by
  intro l
  induction l with
  | nil => rfl
  | cons c cs ih => simp [charsLt, ih]

theorem charsLt_trans : ∀ {a b c : List Char},
    charsLt a b = true → charsLt b c = true → charsLt a c = true := by
  intro a
  induction a with
  | nil =>
    intro b c hab hbc
    cases b with
    | nil => simp [charsLt] at hab
    | cons y ys =>
      cases c with
      | nil => simp [charsLt] at hbc
      | cons z zs => rfl
  | cons x xs ih =>
    intro b c hab hbc
    cases b with
    | nil => simp [charsLt] at hab
    | cons y ys =>
      cases c with
      | nil => simp [charsLt] at hbc
      | cons z zs =>
        simp only [charsLt] at hab hbc ⊢
        by_cases h1 : x.toNat < y.toNat
        · by_cases h2 : y.toNat < z.toNat
          · simp [show x.toNat < z.toNat by omega]
          · simp only [h2, if_neg, if_false] at hbc
            by_cases h3 : z.toNat < y.toNat
            · simp [h3] at hbc
            · have : y.toNat = z.toNat := by omega
              simp [show x.toNat < z.toNat by omega]
        · simp only [h1, if_neg, if_false] at hab
          by_cases h1b : y.toNat < x.toNat
          · simp [h1b] at hab
          · rw [if_neg h1b] at hab
            have hxy : x.toNat = y.toNat := by omega
            by_cases h2 : y.toNat < z.toNat
            · simp [show x.toNat < z.toNat by omega]
            · simp only [h2, if_neg, if_false] at hbc
              by_cases h3 : z.toNat < y.toNat
              · simp [h3] at hbc
              · rw [if_neg h3] at hbc
                have hyz : y.toNat = z.toNat := by omega
                simp only [show ¬ x.toNat < z.toNat by omega, if_neg, if_false,
                  show ¬ z.toNat < x.toNat by omega]
                exact ih hab hbc

theorem charsLt_total : ∀ {a b : List Char},
    charsLt a b = false → charsLt b a = false → a = b := by
  intro a
  induction a with
  | nil =>
    intro b hab _
    cases b with
    | nil => rfl
    | cons y ys => simp [charsLt] at hab
  | cons x xs ih =>
    intro b hab hba
    cases b with
    | nil => simp [charsLt] at hba
    | cons y ys =>
      simp only [charsLt] at hab hba
      by_cases h1 : x.toNat < y.toNat
      · simp [h1] at hab
      · by_cases h2 : y.toNat < x.toNat
        · simp [h2] at hba
        · have hxy : x.toNat = y.toNat := by omega
          simp only [h1, h2, if_neg, if_false] at hab hba
          have hchar : x = y := by
            cases x
            cases y
            simp only [Char.toNat] at hxy
            congr 1
            exact UInt32.ext hxy
          rw [hchar, ih hab hba]

theorem strLt_irrefl (a : String) : strLt a a = false :=
  charsLt_irrefl a.data

theorem strLt_trans {a b c : String} (h1 : strLt a b = true)
    (h2 : strLt b c = true) : strLt a c = true :=
  charsLt_trans h1 h2

theorem strLt_total {a b : String} (h1 : strLt a b = false)
    (h2 : strLt b a = false) : a = b := by
  have hd : a.data = b.data := charsLt_total h1 h2
  cases a
  cases b
  exact congrArg String.mk hd

theorem comparePlayerIds_self (a : PlayerId) : comparePlayerIds a a = 0 := by
  unfold comparePlayerIds
  simp [strLt_irrefl]

theorem comparePlayerIds_le_iff {a b : PlayerId}
    (ha : digitOnly a = true) (hb : digitOnly b = true) :
    comparePlayerIds a b ≤ 0 ↔
      (natVal a < natVal b ∨ (natVal a = natVal b ∧ strLt b a = false)) := by
  unfold comparePlayerIds
  rw [ha, hb]
  by_cases hne : natVal a ≠ natVal b
  · by_cases hlt : natVal a < natVal b
    · simp [hne, hlt]
    · simp [hne, hlt, Nat.lt_of_le_of_ne]
  · push_neg at hne
    by_cases hab : strLt a b = true
    · have hba : strLt b a = false := by
        by_cases h : strLt b a = true
        · have := strLt_trans hab h
          rw [strLt_irrefl] at this
          exact absurd this (by simp)
        · simpa using h
      simp [hne, hab, hba]
    · by_cases hba : strLt b a = true
      · simp [hne, hab, hba]
      · simp [hne, hab, hba]

theorem comparePlayerIds_lt_iff {a b : PlayerId}
    (ha : digitOnly a = true) (hb : digitOnly b = true) :
    comparePlayerIds a b < 0 ↔
      (natVal a < natVal b ∨ (natVal a = natVal b ∧ strLt a b = true)) := by
  unfold comparePlayerIds
  rw [ha, hb]
  by_cases hne : natVal a ≠ natVal b
  · by_cases hlt : natVal a < natVal b
    · simp [hne, hlt]
    · simp [hne, hlt]
  · push_neg at hne
    by_cases hab : strLt a b = true
    · simp [hne, hab]
    · by_cases hba : strLt b a = true
      · simp [hne, hab, hba]
      · simp [hne, hab, hba]

theorem comparePlayerIds_total {a b : PlayerId}
    (ha : digitOnly a = true) (hb : digitOnly b = true)
    (h : ¬ comparePlayerIds a b < 0) : comparePlayerIds b a ≤ 0 := by
  rw [comparePlayerIds_lt_iff ha hb] at h
  rw [comparePlayerIds_le_iff hb ha]
  push_neg at h
  obtain ⟨h1, h2⟩ := h
  by_cases he : natVal a = natVal b
  · right
    exact ⟨he.symm, by simpa using h2 he⟩
  · left
    omega

theorem comparePlayerIds_le_trans {a b c : PlayerId}
    (ha : digitOnly a = true) (hb : digitOnly b = true) (hc : digitOnly c = true)
    (h1 : comparePlayerIds a b ≤ 0) (h2 : comparePlayerIds b c ≤ 0) :
    comparePlayerIds a c ≤ 0 := by
  rw [comparePlayerIds_le_iff ha hb] at h1
  rw [comparePlayerIds_le_iff hb hc] at h2
  rw [comparePlayerIds_le_iff ha hc]
  rcases h1 with h1 | ⟨he1, hs1⟩
  · rcases h2 with h2 | ⟨he2, _⟩
    · left; omega
    · left; omega
  · rcases h2 with h2 | ⟨he2, hs2⟩
    · left; omega
    · right
      refine ⟨by omega, ?_⟩
      by_cases hca : strLt c a = true
      · by_cases hbc2 : strLt b c = true
        · have := strLt_trans hbc2 hca
          rw [this] at hs1
          exact absurd hs1 (by simp)
        · have hbc : b = c := strLt_total (by simpa using hbc2) hs2
          rw [← hbc] at hca
          rw [hca] at hs1
          exact absurd hs1 (by simp)
      · simpa using hca

theorem electWinner_foldl_spec : ∀ (peers : List PlayerId) (acc : PlayerId),
    digitOnly acc = true → (∀ x ∈ peers, digitOnly x = true) →
    (peers.foldl (fun m id => if comparePlayerIds id m < 0 then id else m) acc = acc ∨
      peers.foldl (fun m id => if comparePlayerIds id m < 0 then id else m) acc ∈ peers) ∧
    digitOnly (peers.foldl (fun m id => if comparePlayerIds id m < 0 then id else m) acc)
      = true ∧
    comparePlayerIds
      (peers.foldl (fun m id => if comparePlayerIds id m < 0 then id else m) acc) acc ≤ 0 ∧
    ∀ x ∈ peers,
      comparePlayerIds
        (peers.foldl (fun m id => if comparePlayerIds id m < 0 then id else m) acc) x ≤ 0 := by
  intro peers
  induction peers with
  | nil =>
    intro acc hacc _
    refine ⟨Or.inl rfl, hacc, ?_, ?_⟩
    · simp [comparePlayerIds_self]
    · simp
  | cons p rest ih =>
    intro acc hacc hall
    have hp : digitOnly p = true := hall p (List.mem_cons_self p rest)
    have hrest : ∀ x ∈ rest, digitOnly x = true :=
      fun x hx => hall x (List.mem_cons_of_mem p hx)
    simp only [List.foldl_cons]
    by_cases hcmp : comparePlayerIds p acc < 0
    · rw [if_pos hcmp]
      obtain ⟨hmem, hdig, hle, hlist⟩ := ih p hp hrest
      refine ⟨?_, hdig, ?_, ?_⟩
      · rcases hmem with h | h
        · exact Or.inr (by rw [h]; exact List.mem_cons_self p rest)
        · exact Or.inr (List.mem_cons_of_mem p h)
      · exact comparePlayerIds_le_trans hdig hp hacc hle (le_of_lt hcmp)
      · intro x hx
        rcases List.mem_cons.mp hx with rfl | hx2
        · exact hle
        · exact hlist x hx2
    · rw [if_neg hcmp]
      obtain ⟨hmem, hdig, hle, hlist⟩ := ih acc hacc hrest
      refine ⟨?_, hdig, hle, ?_⟩
      · rcases hmem with h | h
        · exact Or.inl h
        · exact Or.inr (List.mem_cons_of_mem p h)
      · intro x hx
        rcases List.mem_cons.mp hx with rfl | hx2
        · exact comparePlayerIds_le_trans hdig hacc hp hle
            (comparePlayerIds_total hp hacc hcmp)
        · exact hlist x hx2

theorem electWinner_least (lid : PlayerId) (peers : List PlayerId)
    (hl : digitOnly lid = true) (hp : ∀ x ∈ peers, digitOnly x = true) :
    electWinner lid peers ∈ lid :: peers ∧
      ∀ x ∈ lid :: peers, comparePlayerIds (electWinner lid peers) x ≤ 0 := by
  obtain ⟨hmem, _, hle, hlist⟩ := electWinner_foldl_spec peers lid hl hp
  unfold electWinner
  refine ⟨?_, ?_⟩
  · rcases hmem with h | h
    · rw [h]
      exact List.mem_cons_self lid peers
    · exact List.mem_cons_of_mem lid h
  · intro x hx
    rcases List.mem_cons.mp hx with rfl | hx2
    · exact hle
    · exact hlist x hx2

theorem hostIsLeast_iff (lid : PlayerId) (s : PMState) :
    hostIsLeast lid s = true ↔
      ∃ h, s.hostId = some h ∧ h ∈ lid :: s.peers ∧
        ∀ x ∈ lid :: s.peers, comparePlayerIds h x ≤ 0 := by
  unfold hostIsLeast
  cases s.hostId with
  | none => simp
  | some h => simp [List.all_eq_true]

theorem electHost_hostId (lid : PlayerId) (t : PMState) :
    (electHost lid t).hostId = some (electWinner lid t.peers) ∧
      (electHost lid t).peers = t.peers := by
  unfold electHost
  by_cases h : t.hostId = some (electWinner lid t.peers)
  · simp [h]
  · simp [h]

theorem pmStep_inv (lid : PlayerId) (hl : digitOnly lid = true) (s : PMState)
    (e : PMEvent) (hinv : pmInv lid s) (he : electionDigitEvent e = true) :
    pmInv lid (pmStep lid s e) := by
  obtain ⟨hdig, hrest⟩ := hinv
  cases e with
  | roster ids => simp [electionDigitEvent] at he
  | connected p =>
    simp only [electionDigitEvent] at he
    by_cases hpl : p = lid
    · simpa [pmStep, hpl] using ⟨hdig, hrest⟩
    · simp only [pmStep, hpl, if_neg, if_false]
      have hdig2 : ∀ x ∈ addPeerKey s.peers p, digitOnly x = true := by
        intro x hx
        unfold addPeerKey at hx
        by_cases hmem : p ∈ s.peers
        · exact hdig x (by simpa [hmem] using hx)
        · rw [if_neg hmem] at hx
          rcases List.mem_append.mp hx with h | h
          · exact hdig x h
          · simp at h
            exact h ▸ he
      obtain ⟨hh, hp⟩ := electHost_hostId lid ⟨addPeerKey s.peers p, s.hostId⟩
      refine ⟨by simpa [hp] using hdig2, Or.inr ?_⟩
      rw [hostIsLeast_iff]
      obtain ⟨hm, hle⟩ := electWinner_least lid (addPeerKey s.peers p) hl hdig2
      exact ⟨_, hh, by simpa [hp] using hm, by simpa [hp] using hle⟩
  | promoted p =>
    simp only [electionDigitEvent] at he
    simp only [pmStep]
    have hdig2 : ∀ x ∈ addPeerKey s.peers p, digitOnly x = true := by
      intro x hx
      unfold addPeerKey at hx
      by_cases hmem : p ∈ s.peers
      · exact hdig x (by simpa [hmem] using hx)
      · rw [if_neg hmem] at hx
        rcases List.mem_append.mp hx with h | h
        · exact hdig x h
        · simp at h
          exact h ▸ he
    obtain ⟨hh, hp⟩ := electHost_hostId lid ⟨addPeerKey s.peers p, s.hostId⟩
    refine ⟨by simpa [hp] using hdig2, Or.inr ?_⟩
    rw [hostIsLeast_iff]
    obtain ⟨hm, hle⟩ := electWinner_least lid (addPeerKey s.peers p) hl hdig2
    exact ⟨_, hh, by simpa [hp] using hm, by simpa [hp] using hle⟩
  | dropped p =>
    simp only [pmStep]
    have hdig2 : ∀ x ∈ s.peers.erase p, digitOnly x = true :=
      fun x hx => hdig x (List.mem_of_mem_erase hx)
    by_cases hhost : s.hostId = some p
    · simp only [hhost, if_pos]
      obtain ⟨hh, hp⟩ := electHost_hostId lid ⟨s.peers.erase p, none⟩
      refine ⟨by simpa [hp] using hdig2, Or.inr ?_⟩
      rw [hostIsLeast_iff]
      obtain ⟨hm, hle⟩ := electWinner_least lid (s.peers.erase p) hl hdig2
      exact ⟨_, hh, by simpa [hp] using hm, by simpa [hp] using hle⟩
    · simp only [hhost, if_neg, if_false]
      refine ⟨hdig2, ?_⟩
      rcases hrest with ⟨h1, h2⟩ | h
      · exact Or.inl ⟨h1, by simp [h2]⟩
      · right
        rw [hostIsLeast_iff] at h ⊢
        obtain ⟨ho, hh, hom, hole⟩ := h
        have hop : ho ≠ p := fun heq => hhost (by rw [← heq]; exact hh)
        refine ⟨ho, hh, ?_, ?_⟩
        · rcases List.mem_cons.mp hom with h | h
          · rw [h]
            exact List.mem_cons_self _ _
          · exact List.mem_cons_of_mem _ ((List.mem_erase_of_ne hop).mpr h)
        · intro x hx
          rcases List.mem_cons.mp hx with rfl | hx2
          · exact hole x (List.mem_cons_self _ _)
          · exact hole x (List.mem_cons_of_mem _ (List.mem_of_mem_erase hx2))

/-- Claim C4 counterexample: with local id `"B"`, after peer `"A"`
    connects (electing `"A"` as host) a roster update that evicts `"A"`
    removes it from the peer set without re-electing, so `hostId` remains
    `"A"`, which is not even a member of `{localId} ∪ peerIds = {"B"}` —
    the claimed identity `hostId = min` does not hold at every instant. -/
theorem claim4_counterexample :
    (pmRun "B" [.connected "A", .roster ["B"]]).hostId = some "A" ∧
    hostIsLeast "B" (pmRun "B" [.connected "A", .roster ["B"]]) = false := by
  constructor
  · rfl
  · rfl

/-- Claim C4 (amended): restricted to election-triggering transitions
    (connection established, pending-initiator promotion, connection-state
    driven drop) over digit-only ids, `hostId` is either still unset (no
    topology event has populated the peer set) or a least element of
    `{localId} ∪ peerIds` under `comparePlayerIds`.  Roster-driven
    evictions perform no re-election and can leave a stale host (see the
    counterexample), and on ids mixing digit-only and other strings the
    §4.7 relation is not transitive (e.g. `"9" < "10" < "1a" < "9"`), so a
    least element need not exist there. -/
theorem claim4_hostId_least (lid : PlayerId) (evs : List PMEvent)
    (hl : digitOnly lid = true)
    (hevs : ∀ e ∈ evs, electionDigitEvent e = true) :
    ((pmRun lid evs).hostId = none ∧ (pmRun lid evs).peers = []) ∨
      hostIsLeast lid (pmRun lid evs) = true := by
  suffices h : ∀ (l : List PMEvent) (s : PMState), pmInv lid s →
      (∀ e ∈ l, electionDigitEvent e = true) →
      pmInv lid (l.foldl (pmStep lid) s) by
    exact (h evs ⟨[], none⟩ ⟨by simp, Or.inl ⟨rfl, rfl⟩⟩ hevs).2
  intro l
  induction l with
  | nil => intro s hs _; exact hs
  | cons e rest ih =>
    intro s hs hall
    simp only [List.foldl_cons]
    exact ih (pmStep lid s e)
      (pmStep_inv lid hl s e hs (hall e (List.mem_cons_self e rest)))
      (fun x hx => hall x (List.mem_cons_of_mem e hx))

theorem setPathSegs_nonObj : ∀ (segs : List String) (st v : JVal),
    (∀ fs, st ≠ .obj fs) → segs ≠ [] → setPathSegs st segs v = (st, true) := by
  intro segs st v hobj hne
  match segs with
  | [] => exact absurd rfl hne
  | [k] =>
    cases st <;> simp [setPathSegs, JVal.write]
    exact absurd rfl (hobj _)
  | k :: k2 :: rest =>
    cases st <;> simp [setPathSegs, JVal.read, JVal.nullish, JVal.write]
    exact absurd rfl (hobj _)

theorem tickOf_obj {st : JVal} {n : ℚ} (h : tickOf st = some n) :
    ∃ fs, st = .obj fs ∧ JVal.lookup fs "tick" = some (.num n) := by
  cases st <;> simp [tickOf] at h ⊢
  rename_i fs
  cases hlk : JVal.lookup fs "tick" with
  | none => rw [hlk] at h; simp at h
  | some v =>
    rw [hlk] at h
    cases v <;> simp at h
    exact h ▸ rfl

theorem setPathSegs_tick : ∀ (segs : List String) (st v : JVal) (n : ℚ),
    tickOf st = some n → segs ≠ ["tick"] →
    tickOf (setPathSegs st segs v).1 = some n := by
  intro segs st v n ht hne
  obtain ⟨fs, rfl, hlk⟩ := tickOf_obj ht
  match segs with
  | [] => exact ht
  | [k] =>
    have hk : k ≠ "tick" := fun h => hne (by rw [h])
    simp only [setPathSegs, JVal.write]
    simp only [tickOf]
    rw [JVal.lookup_setField_ne fs k "tick" v (Ne.symm hk), hlk]
  | k :: k2 :: rest =>
    by_cases hk : k = "tick"
    · subst hk
      simp only [setPathSegs, JVal.read, hlk, JVal.nullish, Bool.false_eq_true,
        if_false, Option.getD_some]
      rw [setPathSegs_nonObj (k2 :: rest) (.num n) v
        (fun _ h => JVal.noConfusion h) (by simp)]
      simp [JVal.write, tickOf, JVal.lookup_setField_self]
    · have hT : ("tick" : String) ≠ k := Ne.symm hk
      simp only [setPathSegs, JVal.read]
      cases hcur : JVal.lookup fs k with
      | none =>
        simp [JVal.nullish, JVal.write, tickOf, JVal.setField_setField_self,
          JVal.lookup_setField_ne _ _ _ _ hT, hlk]
      | some cur =>
        by_cases hnul : JVal.nullish (some cur) = true
        · simp [hnul, JVal.write, tickOf, JVal.setField_setField_self,
            JVal.lookup_setField_ne _ _ _ _ hT, hlk]
        · simp [hnul, JVal.write, tickOf, JVal.setField_setField_self,
            JVal.lookup_setField_ne _ _ _ _ hT, hlk]

theorem applyChanges_tick : ∀ (cs : List JVal) (st : JVal) (n : ℚ),
    tickOf st = some n → cs.all changeOkForTick = true →
    tickOf (applyChanges st cs).1 = some n := by
  intro cs
  induction cs with
  | nil => intro st n ht _; exact ht
  | cons c rest ih =>
    intro st n ht hall
    simp only [List.all_cons, Bool.and_eq_true] at hall
    obtain ⟨hok, hrest⟩ := hall
    cases c with
    | null => simpa [applyChanges, JVal.read] using ht
    | undef => simpa [applyChanges, JVal.read] using ht
    | num q => simpa [applyChanges, JVal.read] using ht
    | nan => simpa [applyChanges, JVal.read] using ht
    | str a => simpa [applyChanges, JVal.read] using ht
    | bool b => simpa [applyChanges, JVal.read] using ht
    | arr xs => simpa [applyChanges, JVal.read] using ht
    | obj cfs =>
      simp only [applyChanges, JVal.read]
      cases hp : JVal.lookup cfs "path" with
      | none => simpa using ht
      | some pv =>
        cases pv with
        | str p =>
          simp only [changeOkForTick, hp, decide_eq_true_eq] at hok
          have hstep := setPathSegs_tick (splitDot p) st
            ((JVal.lookup cfs "value").getD .undef) n ht hok
          cases hsp : setPathSegs st (splitDot p)
            ((JVal.lookup cfs "value").getD .undef) with
          | mk st1 e =>
            rw [hsp] at hstep
            by_cases he : e = true
            · subst he
              simpa [hsp] using hstep
            · simp only [Bool.not_eq_true] at he
              subst he
              have := ih st1 n hstep hrest
              simpa [hsp] using this
        | null => simpa using ht
        | undef => simpa using ht
        | num q => simpa using ht
        | nan => simpa using ht
        | bool b => simpa using ht
        | arr xs => simpa using ht
        | obj fs2 => simpa using ht

theorem applyDelta_tick (st d : JVal) (n : ℚ) (ht : tickOf st = some n)
    (hok : deltaOkForTick d = true) :
    ∃ m, tickOf (applyDelta st d).1 = some m ∧ n ≤ m := by
  cases d with
  | null => exact ⟨n, by simpa [applyDelta, JVal.read] using ht, le_refl n⟩
  | undef => exact ⟨n, by simpa [applyDelta, JVal.read] using ht, le_refl n⟩
  | num q => exact ⟨n, by simpa [applyDelta, JVal.read] using ht, le_refl n⟩
  | nan => exact ⟨n, by simpa [applyDelta, JVal.read] using ht, le_refl n⟩
  | str a => exact ⟨n, by simpa [applyDelta, JVal.read] using ht, le_refl n⟩
  | bool b => exact ⟨n, by simpa [applyDelta, JVal.read] using ht, le_refl n⟩
  | arr xs => exact ⟨n, by simpa [applyDelta, JVal.read] using ht, le_refl n⟩
  | obj dfs =>
    simp only [applyDelta, JVal.read]
    cases hch : JVal.lookup dfs "changes" with
    | none => exact ⟨n, by simpa using ht, le_refl n⟩
    | some chv =>
      cases chv with
      | arr cs =>
        simp only [deltaOkForTick, hch, Bool.and_eq_true] at hok
        obtain ⟨hcs, htick⟩ := hok
        have hac := applyChanges_tick cs st n ht hcs
        cases hsp : applyChanges st cs with
        | mk st1 e =>
          rw [hsp] at hac
          by_cases he : e = true
          · subst he
            exact ⟨n, by simpa [hsp] using hac, le_refl n⟩
          · simp only [Bool.not_eq_true] at he
            subst he
            obtain ⟨fs1, rfl, hlk1⟩ := tickOf_obj hac
            cases hdt : JVal.lookup dfs "tick" with
            | none => simp [hdt] at htick
            | some dv =>
              rw [hdt] at htick
              simp only [jsNumeric, Option.isSome] at htick
              cases hq : JVal.toNumber dv with
              | none => rw [hq] at htick; simp at htick
              | some q =>
                refine ⟨max n q, ?_, le_max_left n q⟩
                have hmax : JVal.jsMax (.num n) dv = .num (max n q) := by
                  unfold JVal.jsMax
                  rw [hq]
                  rfl
                have hgd : (some dv).getD JVal.undef = dv := rfl
                simp [hsp, hlk1, hdt, JVal.write, hmax, tickOf,
                  JVal.lookup_setField_self]
      | null => exact ⟨n, by simpa [hch] using ht, le_refl n⟩
      | undef => exact ⟨n, by simpa [hch] using ht, le_refl n⟩
      | num q => exact ⟨n, by simpa [hch] using ht, le_refl n⟩
      | nan => exact ⟨n, by simpa [hch] using ht, le_refl n⟩
      | str a => exact ⟨n, by simpa [hch] using ht, le_refl n⟩
      | bool b => exact ⟨n, by simpa [hch] using ht, le_refl n⟩
      | obj fs2 => exact ⟨n, by simpa [hch] using ht, le_refl n⟩

theorem copyPlayers_tick (lid : Option PlayerId) :
    ∀ (entries : List (String × JVal)) (st : JVal) (n : ℚ),
    tickOf st = some n → tickOf (copyPlayers lid st entries).1 = some n := by
  intro entries
  induction entries with
  | nil => intro st n ht; exact ht
  | cons e rest ih =>
    intro st n ht
    obtain ⟨fs, rfl, hlk⟩ := tickOf_obj ht
    obtain ⟨pid, ps⟩ := e
    by_cases hl : lid = some pid
    · simp only [copyPlayers]
      rw [if_pos hl]
      exact ih _ n ht
    · simp only [copyPlayers]
      rw [if_neg hl]
      simp only [JVal.read]
      cases hpl : JVal.lookup fs "players" with
      | none => exact ht
      | some pl =>
        cases pl with
        | obj pfs =>
          exact ih (.obj (JVal.setField fs "players"
              (.obj (JVal.setField pfs pid ps)))) n (by
            simp only [tickOf]
            rw [JVal.lookup_setField_ne fs "players" "tick" _ (by decide), hlk])
        | null => exact ht
        | undef => exact ht
        | num q => exact ht
        | nan => exact ht
        | str a => exact ht
        | bool b => exact ht
        | arr xs => exact ht

theorem copyInventories_tick (lid : Option PlayerId) :
    ∀ (entries : List (String × JVal)) (st : JVal) (n : ℚ),
    tickOf st = some n → tickOf (copyInventories lid st entries).1 = some n := by
  intro entries
  induction entries with
  | nil => intro st n ht; exact ht
  | cons e rest ih =>
    intro st n ht
    obtain ⟨fs, rfl, hlk⟩ := tickOf_obj ht
    obtain ⟨pid, items⟩ := e
    by_cases hl : lid = some pid
    · simp only [copyInventories]
      rw [if_pos hl]
      exact ih _ n ht
    · cases items with
      | arr xs =>
        simp only [copyInventories]
        rw [if_neg hl]
        simp only [JVal.read]
        cases hpl : JVal.lookup fs "inventories" with
        | none => exact ht
        | some inv =>
          cases inv with
          | obj ifs =>
            exact ih (.obj (JVal.setField fs "inventories"
                (.obj (JVal.setField ifs pid
                  (.arr (xs.map JVal.spreadClone)))))) n (by
              simp only [tickOf]
              rw [JVal.lookup_setField_ne fs "inventories" "tick" _
                (by decide), hlk])
          | null => exact ht
          | undef => exact ht
          | num q => exact ht
          | nan => exact ht
          | str a => exact ht
          | bool b => exact ht
          | arr ys => exact ht
      | null => simp only [copyInventories]; rw [if_neg hl]; exact ht
      | undef => simp only [copyInventories]; rw [if_neg hl]; exact ht
      | num q => simp only [copyInventories]; rw [if_neg hl]; exact ht
      | nan => simp only [copyInventories]; rw [if_neg hl]; exact ht
      | str a => simp only [copyInventories]; rw [if_neg hl]; exact ht
      | bool b => simp only [copyInventories]; rw [if_neg hl]; exact ht
      | obj ofs => simp only [copyInventories]; rw [if_neg hl]; exact ht

theorem joinAdoptPlayer_tick (l : String) (st : JVal) (li : Option JVal)
    (n : ℚ) (ht : tickOf st = some n) :
    tickOf (joinAdoptPlayer l st li).1 = some n := by
  obtain ⟨fs, rfl, hlk⟩ := tickOf_obj ht
  by_cases htr : JVal.truthy (li.getD .undef) = true
  · simp only [joinAdoptPlayer]
    rw [if_pos htr]
    simp only [JVal.read]
    cases hpl : JVal.lookup fs "players" with
    | none => exact ht
    | some pl =>
      cases pl with
      | obj pfs =>
        simp only [Option.getD_some, JVal.write, tickOf]
        rw [JVal.lookup_setField_ne fs "players" "tick" _ (by decide), hlk]
      | null => exact ht
      | undef => exact ht
      | num q => exact ht
      | nan => exact ht
      | str a => exact ht
      | bool b => exact ht
      | arr xs => exact ht
  · simp only [joinAdoptPlayer]
    rw [if_neg htr]
    exact ht

theorem joinAdoptInventory_tick (l : String) (st : JVal) (li : Option JVal)
    (n : ℚ) (ht : tickOf st = some n) :
    tickOf (joinAdoptInventory l st li).1 = some n := by
  obtain ⟨fs, rfl, hlk⟩ := tickOf_obj ht
  by_cases htr : JVal.truthy (li.getD .undef) = true
  · simp only [joinAdoptInventory]
    rw [if_pos htr]
    cases li with
    | none => exact ht
    | some lv =>
      cases lv with
      | arr xs =>
        simp only [JVal.read]
        cases hinv : JVal.lookup fs "inventories" with
        | none => exact ht
        | some inv =>
          cases inv with
          | obj ifs =>
            simp only [Option.getD_some, JVal.write, tickOf]
            rw [JVal.lookup_setField_ne fs "inventories" "tick" _
              (by decide), hlk]
          | null => exact ht
          | undef => exact ht
          | num q => exact ht
          | nan => exact ht
          | str a => exact ht
          | bool b => exact ht
          | arr ys => exact ht
      | null => exact ht
      | undef => exact ht
      | num q => exact ht
      | nan => exact ht
      | str a => exact ht
      | bool b => exact ht
      | obj ofs => exact ht
  · simp only [joinAdoptInventory]
    rw [if_neg htr]
    exact ht

theorem applyLocalJoin_tick (lid : Option PlayerId)
    (lastSeq : List (String × JVal)) (st incoming : JVal) (n : ℚ)
    (ht : tickOf st = some n) :
    tickOf (applyLocalJoin lid lastSeq st incoming).1 = some n := by
  cases lid with
  | none => exact ht
  | some l =>
    by_cases hskip : l = "" ∨ ¬ seqAbsent lastSeq l = true
    · simp only [applyLocalJoin]
      rw [if_pos hskip]
      exact ht
    · cases hip : incoming.read "players" with
      | error e =>
        simp only [applyLocalJoin, hip]
        rw [if_neg hskip]
        exact ht
      | ok ipl =>
        cases hloc : (ipl.getD .undef).read l with
        | error e =>
          simp only [applyLocalJoin, hip, hloc]
          rw [if_neg hskip]
          exact ht
        | ok localIncoming =>
          have h1 := joinAdoptPlayer_tick l st localIncoming n ht
          by_cases he : (joinAdoptPlayer l st localIncoming).2 = true
          · simp only [applyLocalJoin, hip, hloc]
            rw [if_neg hskip, if_pos he]
            exact h1
          · cases hii : incoming.read "inventories" with
            | error e =>
              simp only [applyLocalJoin, hip, hloc, hii]
              rw [if_neg hskip, if_neg he]
              exact h1
            | ok iinv =>
              cases hli : (iinv.getD .undef).read l with
              | error e =>
                simp only [applyLocalJoin, hip, hloc, hii, hli]
                rw [if_neg hskip, if_neg he]
                exact h1
              | ok localInv =>
                simp only [applyLocalJoin, hip, hloc, hii, hli]
                rw [if_neg hskip, if_neg he]
                exact joinAdoptInventory_tick l _ localInv n h1

theorem buildDelta_tick (st : JVal) (ps : List String) (n : ℚ)
    (ht : tickOf st = some n) :
    ∃ m, tickOf (buildDeltaFromPaths st ps).1 = some m ∧ n ≤ m := by
  obtain ⟨fs, rfl, hlk⟩ := tickOf_obj ht
  cases hmv : ps.mapM (getPathValue (.obj fs)) with
  | error e =>
    refine ⟨n, ?_, le_refl n⟩
    simp only [buildDeltaFromPaths, hmv]
    exact ht
  | ok vals =>
    refine ⟨n + 1, ?_, by linarith⟩
    simp only [buildDeltaFromPaths, hmv, JVal.read, hlk, Option.getD_some,
      JVal.toNumber, JVal.write, tickOf, JVal.lookup_setField_self]

theorem applyFullState_tick (lid : Option PlayerId)
    (lastSeq : List (String × JVal)) (st incoming : JVal) (n : ℚ)
    (ht : tickOf st = some n) (hok : snapOkForTick incoming = true) :
    ∃ m, tickOf (applyFullState lid lastSeq st incoming).1 = some m ∧ n ≤ m := by
  cases incoming with
  | null => exact ⟨n, by simp only [applyFullState, JVal.read]; exact ht, le_refl n⟩
  | undef => exact ⟨n, by simp only [applyFullState, JVal.read]; exact ht, le_refl n⟩
  | num q =>
    exact ⟨n, by simp only [applyFullState, JVal.read, JVal.entries]; exact ht,
      le_refl n⟩
  | nan =>
    exact ⟨n, by simp only [applyFullState, JVal.read, JVal.entries]; exact ht,
      le_refl n⟩
  | str a =>
    exact ⟨n, by simp only [applyFullState, JVal.read, JVal.entries]; exact ht,
      le_refl n⟩
  | bool b =>
    exact ⟨n, by simp only [applyFullState, JVal.read, JVal.entries]; exact ht,
      le_refl n⟩
  | arr xs =>
    exact ⟨n, by simp only [applyFullState, JVal.read, JVal.entries]; exact ht,
      le_refl n⟩
  | obj ifs =>
    simp only [snapOkForTick] at hok
    cases hti : JVal.lookup ifs "tick" with
    | none => rw [hti] at hok; simp at hok
    | some tv =>
      rw [hti] at hok
      simp only [jsNumeric, Option.isSome] at hok
      cases hq : JVal.toNumber tv with
      | none => rw [hq] at hok; simp at hok
      | some q =>
        cases hent : JVal.entries (JVal.lookup ifs "players") with
        | error e =>
          refine ⟨n, ?_, le_refl n⟩
          simp only [applyFullState, JVal.read, hent]
          exact ht
        | ok ip =>
          have h1 := copyPlayers_tick lid ip st n ht
          by_cases he1 : (copyPlayers lid st ip).2 = true
          · refine ⟨n, ?_, le_refl n⟩
            simp only [applyFullState, JVal.read, hent]
            rw [if_pos he1]
            exact h1
          · cases hent2 : JVal.entries (JVal.lookup ifs "inventories") with
            | error e =>
              refine ⟨n, ?_, le_refl n⟩
              simp only [applyFullState, JVal.read, hent, hent2]
              rw [if_neg he1]
              exact h1
            | ok ii =>
              have h2 := copyInventories_tick lid ii (copyPlayers lid st ip).1
                n h1
              by_cases he2 :
                  (copyInventories lid (copyPlayers lid st ip).1 ii).2 = true
              · refine ⟨n, ?_, le_refl n⟩
                simp only [applyFullState, JVal.read, hent, hent2]
                rw [if_neg he1, if_pos he2]
                exact h2
              · have h3 := applyLocalJoin_tick lid lastSeq
                  (copyInventories lid (copyPlayers lid st ip).1 ii).1
                  (.obj ifs) n h2
                by_cases he3 : (applyLocalJoin lid lastSeq
                    (copyInventories lid (copyPlayers lid st ip).1 ii).1
                    (.obj ifs)).2 = true
                · refine ⟨n, ?_, le_refl n⟩
                  simp only [applyFullState, JVal.read, hent, hent2]
                  rw [if_neg he1, if_neg he2, if_pos he3]
                  exact h3
                · obtain ⟨fs3, hst3, hlk3⟩ := tickOf_obj h3
                  refine ⟨max n q, ?_, le_max_left n q⟩
                  have hmax : JVal.jsMax (.num n) tv = .num (max n q) := by
                    unfold JVal.jsMax
                    rw [hq]
                    rfl
                  simp only [applyFullState, JVal.read, hent, hent2]
                  rw [if_neg he1, if_neg he2, if_neg he3, hst3]
                  simp only [JVal.read, JVal.write, Option.getD_some,
                    JVal.lookup_setField_ne _ _ _ _
                      (by decide : ("tick" : String) ≠ "objects"),
                    hlk3, hti, hmax, tickOf, JVal.lookup_setField_self]

theorem syncExec_tick (st : JVal) (s : SyncStep) (n : ℚ)
    (ht : tickOf st = some n) (hok : okSyncStep s = true) :
    ∃ m, tickOf (syncExec st s) = some m ∧ n ≤ m := by
  cases s with
  | applySnapshot l q inc => exact applyFullState_tick l q st inc n ht hok
  | applyDeltaMsg d => exact applyDelta_tick st d n ht hok
  | buildDelta ps => exact buildDelta_tick st ps n ht

theorem syncRun_tick : ∀ (steps : List SyncStep) (st : JVal) (n : ℚ),
    tickOf st = some n → steps.all okSyncStep = true →
    ∃ m, tickOf (syncRun st steps) = some m ∧ n ≤ m := by
  intro steps
  induction steps with
  | nil => intro st n ht _; exact ⟨n, ht, le_refl n⟩
  | cons s rest ih =>
    intro st n ht hall
    simp only [List.all_cons, Bool.and_eq_true] at hall
    obtain ⟨hs, hrest⟩ := hall
    obtain ⟨m1, hm1, h1⟩ := syncExec_tick st s n ht hs
    obtain ⟨m2, hm2, h2⟩ := ih (syncExec st s) m1 hm1 hrest
    exact ⟨m2, hm2, le_trans h1 h2⟩

/-- Claim C6 counterexample: the spec says the replicated `tick` never
    decreases on any state-manager operation, but a `state_delta` whose
    change list addresses the root path `"tick"` can lower it.  From the
    initial state, building a delta raises `tick` to `1`; an incoming
    delta `{ tick: 0, changes: [{ path: "tick", value: 0 }] }` then first
    overwrites `tick` with `0` through the change writer, and the closing
    `tick = max(tick, delta.tick) = max(0, 0)` keeps it at `0 < 1`. -/
theorem claim6_counterexample :
    tickOf (syncRun initialState.g [.buildDelta ["players"]]) = some 1 ∧
    tickOf (syncRun initialState.g [.buildDelta ["players"],
      .applyDeltaMsg (.obj [("tick", .num 0),
        ("changes", .arr [.obj [("path", .str "tick"),
          ("value", .num 0)]])])]) = some 0 := by
  constructor
  · have e1 : tickOf (syncRun initialState.g [.buildDelta ["players"]])
        = some ((0 : ℚ) + 1) := rfl
    rw [e1]
    norm_num
  · have e2 : tickOf (syncRun initialState.g [.buildDelta ["players"],
        .applyDeltaMsg (.obj [("tick", .num 0),
          ("changes", .arr [.obj [("path", .str "tick"),
            ("value", .num 0)]])])]) = some (max (0 : ℚ) 0) := rfl
    rw [e2]
    norm_num

/-- Claim C6 (corrected): on every run of state-manager operations
    (snapshot application, delta application, local delta building) in
    which no applied delta carries a change whose path is exactly `tick`
    and every applied delta and snapshot carries a numeric `tick`, the
    replicated `tick` is monotone: it stays numeric and never decreases. -/
theorem claim6_tick_monotone_guarded (st : JVal) (steps : List SyncStep)
    (n : ℚ) (ht : tickOf st = some n)
    (hok : steps.all okSyncStep = true) :
    ∃ m, tickOf (syncRun st steps) = some m ∧ n ≤ m :=
  syncRun_tick steps st n ht hok

/-- Claim C6 witness: from the initial state (tick `0`), a benign delta
    (numeric tick `5`, one change at path `players.alice`) satisfies the
    guard, and the run's final tick is a number `≥ 0`. -/
theorem claim6_witness :
    tickOf initialState.g = some 0 ∧
    [SyncStep.applyDeltaMsg (.obj [("tick", .num 5),
      ("changes", .arr [.obj [("path", .str "players.alice"),
        ("value", .num 1)]])])].all okSyncStep = true ∧
    ∃ m, tickOf (syncRun initialState.g
      [SyncStep.applyDeltaMsg (.obj [("tick", .num 5),
        ("changes", .arr [.obj [("path", .str "players.alice"),
          ("value", .num 1)]])])]) = some m ∧ (0 : ℚ) ≤ m :=
  ⟨rfl, rfl,
    claim6_tick_monotone_guarded initialState.g
      [SyncStep.applyDeltaMsg (.obj [("tick", .num 5),
        ("changes", .arr [.obj [("path", .str "players.alice"),
          ("value", .num 1)]])])] 0 rfl rfl⟩

theorem resolveCollisions_pair (r : ℝ) (a b : Pos3) :
    resolveCollisions r [a, b] =
      [(resolvePairStep r a b).1, (resolvePairStep r a b).2] := by
  rw [resolveCollisions.eq_def]
  simp only [resolveAgainstRest]
  rw [resolveCollisions.eq_def]
  simp only [resolveAgainstRest]
  rw [resolveCollisions.eq_def]

theorem resolvePairStep_separation (r : ℝ) (a b : Pos3) (hr : 0 < r) (he : collisionEps ≤ r) :
    2 * r - 2 * collisionEps ≤
      dist3 (resolvePairStep r a b).1 (resolvePairStep r a b).2 := by
  have he0 : (0:ℝ) < collisionEps := by norm_num [collisionEps]
  obtain ⟨ax, ay, azo⟩ := a
  obtain ⟨bx, by', bzo⟩ := b
  simp only [resolvePairStep, dist3]
  split
  · rename_i hcol
    split
    · rename_i hco
      set s := Real.sqrt ((bx - ax) * (bx - ax) + (by' - ay) * (by' - ay) + (bzo.getD 0 - azo.getD 0) * (bzo.getD 0 - azo.getD 0)) with hs
      rw [max_eq_left (le_of_lt hco)]
      norm_num
      have hD0 : (0:ℝ) ≤ (bx - ax) * (bx - ax) + (by' - ay) * (by' - ay) + (bzo.getD 0 - azo.getD 0) * (bzo.getD 0 - azo.getD 0) :=
        add_nonneg (add_nonneg (mul_self_nonneg _) (mul_self_nonneg _)) (mul_self_nonneg _)
      have hs0 : 0 ≤ s := by rw [hs]; exact Real.sqrt_nonneg _
      have hs2 : s * s = (bx - ax) * (bx - ax) + (by' - ay) * (by' - ay) + (bzo.getD 0 - azo.getD 0) * (bzo.getD 0 - azo.getD 0) := by rw [hs]; exact Real.mul_self_sqrt hD0
      have hss : s * s < collisionEps * collisionEps := mul_self_lt_mul_self hs0 hco
      have hdxsq : (bx - ax) * (bx - ax) < collisionEps * collisionEps := by nlinarith [mul_self_nonneg (by' - ay), mul_self_nonneg (bzo.getD 0 - azo.getD 0)]
      have hdx : -collisionEps < bx - ax := by nlinarith [sq_nonneg (bx - ax + collisionEps)]
      set w := bx + (r * 2 - collisionEps) / 2 - (ax - (r * 2 - collisionEps) / 2) with hw
      have hw' : w = (bx - ax) + (r * 2 - collisionEps) := by rw [hw]; ring
      have hw0 : 2 * r - 2 * collisionEps ≤ w := by rw [hw']; linarith
      have harg : w * w ≤ w * w + (by' - ay) * (by' - ay) + (bzo.getD 0 - azo.getD 0) * (bzo.getD 0 - azo.getD 0) := by nlinarith [mul_self_nonneg (by' - ay), mul_self_nonneg (bzo.getD 0 - azo.getD 0)]
      have h1 : Real.sqrt (w * w) ≤ Real.sqrt (w * w + (by' - ay) * (by' - ay) + (bzo.getD 0 - azo.getD 0) * (bzo.getD 0 - azo.getD 0)) := Real.sqrt_le_sqrt harg
      have h2 : Real.sqrt (w * w) = |w| := Real.sqrt_mul_self_eq_abs w
      have h3 : w ≤ |w| := le_abs_self w
      linarith
    · rename_i hco
      set s := Real.sqrt ((bx - ax) * (bx - ax) + (by' - ay) * (by' - ay) + (bzo.getD 0 - azo.getD 0) * (bzo.getD 0 - azo.getD 0)) with hs
      have hes : collisionEps ≤ s := le_of_not_lt hco
      have hs0 : (0:ℝ) < s := lt_of_lt_of_le he0 hes
      have hsne : s ≠ 0 := ne_of_gt hs0
      have hD0 : (0:ℝ) ≤ (bx - ax) * (bx - ax) + (by' - ay) * (by' - ay) + (bzo.getD 0 - azo.getD 0) * (bzo.getD 0 - azo.getD 0) :=
        add_nonneg (add_nonneg (mul_self_nonneg _) (mul_self_nonneg _)) (mul_self_nonneg _)
      have hs2 : s * s = (bx - ax) * (bx - ax) + (by' - ay) * (by' - ay) + (bzo.getD 0 - azo.getD 0) * (bzo.getD 0 - azo.getD 0) := by rw [hs]; exact Real.mul_self_sqrt hD0
      rw [max_eq_right hes]
      simp only [Option.getD_some]
      have hx' : bx + (bx - ax) / s * ((r * 2 - s) / 2) - (ax - (bx - ax) / s * ((r * 2 - s) / 2)) = (bx - ax) * (r * 2) / s := by field_simp; ring
      have hy' : by' + (by' - ay) / s * ((r * 2 - s) / 2) - (ay - (by' - ay) / s * ((r * 2 - s) / 2)) = (by' - ay) * (r * 2) / s := by field_simp; ring
      have hz' : bzo.getD 0 + (bzo.getD 0 - azo.getD 0) / s * ((r * 2 - s) / 2) - (azo.getD 0 - (bzo.getD 0 - azo.getD 0) / s * ((r * 2 - s) / 2)) = (bzo.getD 0 - azo.getD 0) * (r * 2) / s := by field_simp; ring
      rw [hx', hy', hz']
      have harg : (bx - ax) * (r * 2) / s * ((bx - ax) * (r * 2) / s) + (by' - ay) * (r * 2) / s * ((by' - ay) * (r * 2) / s) + (bzo.getD 0 - azo.getD 0) * (r * 2) / s * ((bzo.getD 0 - azo.getD 0) * (r * 2) / s) = (r * 2) * (r * 2) := by
        field_simp
        linear_combination (-((r * 2) * (r * 2))) * hs2
      rw [harg]
      rw [Real.sqrt_mul_self (by linarith : (0:ℝ) ≤ r * 2)]
      linarith
  · rename_i hcol
    dsimp only
    push_neg at hcol
    have hD0 : (0:ℝ) ≤ (bx - ax) * (bx - ax) + (by' - ay) * (by' - ay) + (bzo.getD 0 - azo.getD 0) * (bzo.getD 0 - azo.getD 0) :=
      add_nonneg (add_nonneg (mul_self_nonneg _) (mul_self_nonneg _)) (mul_self_nonneg _)
    have h1 : Real.sqrt (r * 2 * (r * 2)) ≤ Real.sqrt ((bx - ax) * (bx - ax) + (by' - ay) * (by' - ay) + (bzo.getD 0 - azo.getD 0) * (bzo.getD 0 - azo.getD 0)) := Real.sqrt_le_sqrt hcol
    rw [Real.sqrt_mul_self (by linarith : (0:ℝ) ≤ r * 2)] at h1
    linarith

theorem resolvePairStep_coincident (r : ℝ) (a b : Pos3) (hr : 0 < r)
    (hx : b.x = a.x) (hy : b.y = a.y) (hz : b.z.getD 0 = a.z.getD 0) :
    resolvePairStep r a b =
      (⟨a.x - (r - collisionEps / 2), a.y, some (a.z.getD 0)⟩,
       ⟨b.x + (r - collisionEps / 2), b.y, some (b.z.getD 0)⟩) := by
  have he0 : (0:ℝ) < collisionEps := by norm_num [collisionEps]
  simp only [resolvePairStep, hx, hy, hz, sub_self, mul_zero, add_zero, zero_add]
  rw [if_pos (by positivity : (0:ℝ) < r * 2 * (r * 2))]
  rw [Real.sqrt_zero]
  rw [if_pos he0]
  rw [max_eq_left he0.le]
  simp only [Prod.mk.injEq, Pos3.mk.injEq, Option.some.injEq]
  norm_num
  ring


theorem resolvePairStep_xaxis (r px qx : ℝ) (pz qz : Option ℝ)
    (hpz : pz.getD 0 = 0) (hqz : qz.getD 0 = 0)
    (hlt : (qx - px) * (qx - px) < r * 2 * (r * 2))
    (hge : collisionEps ≤ qx - px) :
    resolvePairStep r ⟨px, 0, pz⟩ ⟨qx, 0, qz⟩ =
      (⟨px - (r * 2 - (qx - px)) / 2, 0, some 0⟩,
       ⟨qx + (r * 2 - (qx - px)) / 2, 0, some 0⟩) := by
  have he0 : (0:ℝ) < collisionEps := by norm_num [collisionEps]
  have hdx0 : (0:ℝ) < qx - px := lt_of_lt_of_le he0 hge
  simp only [resolvePairStep, hpz, hqz, sub_self, mul_zero, add_zero, zero_add, sub_zero]
  rw [if_pos hlt]
  rw [Real.sqrt_mul_self hdx0.le]
  rw [if_neg (not_lt.mpr hge)]
  rw [max_eq_right hge]
  rw [div_self (ne_of_gt hdx0)]
  simp only [Prod.mk.injEq, Pos3.mk.injEq, Option.some.injEq]
  norm_num

theorem resolvePairStep_xaxis_neg (r px qx : ℝ) (pz qz : Option ℝ)
    (hpz : pz.getD 0 = 0) (hqz : qz.getD 0 = 0)
    (hlt : (qx - px) * (qx - px) < r * 2 * (r * 2))
    (hge : collisionEps ≤ px - qx) :
    resolvePairStep r ⟨px, 0, pz⟩ ⟨qx, 0, qz⟩ =
      (⟨px + (r * 2 - (px - qx)) / 2, 0, some 0⟩,
       ⟨qx - (r * 2 - (px - qx)) / 2, 0, some 0⟩) := by
  have he0 : (0:ℝ) < collisionEps := by norm_num [collisionEps]
  have hdx0 : (0:ℝ) < px - qx := lt_of_lt_of_le he0 hge
  have habs : Real.sqrt ((qx - px) * (qx - px)) = px - qx := by
    rw [Real.sqrt_mul_self_eq_abs, abs_of_nonpos (by linarith), neg_sub]
  simp only [resolvePairStep, hpz, hqz, sub_self, mul_zero, add_zero, zero_add, sub_zero]
  rw [if_pos hlt]
  rw [habs]
  rw [if_neg (not_lt.mpr hge)]
  rw [max_eq_right hge]
  rw [show (qx - px) / (px - qx) = -1 from by
    rw [show qx - px = -(px - qx) from by ring, neg_div, div_self (ne_of_gt hdx0)]]
  simp only [Prod.mk.injEq, Pos3.mk.injEq, Option.some.injEq]
  norm_num
  ring

theorem pairStepCoincident16 :
    resolvePairStep 16 ⟨0, 0, none⟩ ⟨0, 0, none⟩ =
      (⟨-16 + collisionEps / 2, 0, some 0⟩, ⟨16 - collisionEps / 2, 0, some 0⟩) := by
  rw [resolvePairStep_coincident 16 ⟨0, 0, none⟩ ⟨0, 0, none⟩ (by norm_num) rfl rfl rfl]
  simp only [Prod.mk.injEq, Pos3.mk.injEq, Option.some.injEq, Option.getD_none]
  norm_num
  ring

theorem pairStepSecond16 :
    resolvePairStep 16 ⟨-16 + collisionEps / 2, 0, some 0⟩ ⟨0, 0, none⟩ =
      (⟨-24 + collisionEps / 4, 0, some 0⟩, ⟨8 + collisionEps / 4, 0, some 0⟩) := by
  rw [resolvePairStep_xaxis 16 (-16 + collisionEps / 2) 0 (some 0) none rfl rfl
    (by norm_num [collisionEps]) (by norm_num [collisionEps])]
  simp only [Prod.mk.injEq, Pos3.mk.injEq, Option.some.injEq]
  refine ⟨⟨by ring, by norm_num⟩, by ring, by norm_num⟩

theorem pairStepThird16 :
    resolvePairStep 16 ⟨16 - collisionEps / 2, 0, some 0⟩ ⟨8 + collisionEps / 4, 0, some 0⟩ =
      (⟨28 - collisionEps / 8, 0, some 0⟩, ⟨-4 - collisionEps / 8, 0, some 0⟩) := by
  rw [resolvePairStep_xaxis_neg 16 (16 - collisionEps / 2) (8 + collisionEps / 4) (some 0) (some 0)
    rfl rfl (by norm_num [collisionEps]) (by norm_num [collisionEps])]
  simp only [Prod.mk.injEq, Pos3.mk.injEq, Option.some.injEq]
  refine ⟨⟨by ring, by norm_num⟩, by ring, by norm_num⟩

/-- Claim C7 counterexample: with `playerRadius = 16` and three coincident
    players at the origin, one `resolveCollisions` pass leaves players 1 and
    3 at distance `20 - 3e/8` where `e = 1e-6`, far below the claimed bound
    `2*16 - e = 32 - e`: resolving the pair (2,3) pushes player 3 back into
    the zone that the earlier (1,2) and (1,3) resolutions had cleared. -/
theorem claim7_counterexample :
    resolveCollisions 16 [⟨0, 0, none⟩, ⟨0, 0, none⟩, ⟨0, 0, none⟩] =
      [⟨-24 + collisionEps / 4, 0, some 0⟩,
       ⟨28 - collisionEps / 8, 0, some 0⟩,
       ⟨-4 - collisionEps / 8, 0, some 0⟩] ∧
    dist3 ⟨-24 + collisionEps / 4, 0, some 0⟩ ⟨-4 - collisionEps / 8, 0, some 0⟩
      < 2 * 16 - collisionEps := by
  constructor
  · have hrar1 : resolveAgainstRest 16 ⟨0, 0, none⟩ [⟨0, 0, none⟩, ⟨0, 0, none⟩] =
        (⟨-24 + collisionEps / 4, 0, some 0⟩,
         [⟨16 - collisionEps / 2, 0, some 0⟩, ⟨8 + collisionEps / 4, 0, some 0⟩]) := by
      simp only [resolveAgainstRest, pairStepCoincident16, pairStepSecond16]
    have hrar2 : resolveAgainstRest 16 ⟨16 - collisionEps / 2, 0, some 0⟩
        [⟨8 + collisionEps / 4, 0, some 0⟩] =
        (⟨28 - collisionEps / 8, 0, some 0⟩, [⟨-4 - collisionEps / 8, 0, some 0⟩]) := by
      simp only [resolveAgainstRest, pairStepThird16]
    rw [resolveCollisions.eq_def]
    simp only [hrar1]
    rw [resolveCollisions.eq_def]
    simp only [hrar2]
    rw [resolveCollisions.eq_def]
    simp only [resolveAgainstRest]
    rw [resolveCollisions.eq_def]
  · have harg : (-4 - collisionEps / 8 - (-24 + collisionEps / 4)) *
        (-4 - collisionEps / 8 - (-24 + collisionEps / 4)) +
        ((0:ℝ) - 0) * (0 - 0) +
        (((some (0:ℝ)).getD 0) - ((some (0:ℝ)).getD 0)) * (((some (0:ℝ)).getD 0) - ((some (0:ℝ)).getD 0)) =
        (20 - 3 * collisionEps / 8) * (20 - 3 * collisionEps / 8) := by
      norm_num
      ring
    simp only [dist3]
    rw [harg, Real.sqrt_mul_self (by norm_num [collisionEps])]
    norm_num [collisionEps]

/-- Claim C7 (corrected): the claimed pairwise bound holds only for states
    with at most two players, and with slack `2e` rather than `e`: one
    `resolveCollisions` pass over `[a, b]` performs exactly one pair
    resolution, after which the distance between the two players is at
    least `2*playerRadius - 2*collisionEps`; when the two players are
    exactly coincident the separation is along the fixed axis `(1,0,0)`.
    (With three or more players no such bound holds; see the
    counterexample.) -/
theorem claim7_pair_separation (r : ℝ) (a b : Pos3)
    (hr : 0 < r) (he : collisionEps ≤ r) :
    resolveCollisions r [a, b] =
        [(resolvePairStep r a b).1, (resolvePairStep r a b).2] ∧
    2 * r - 2 * collisionEps ≤
        dist3 (resolvePairStep r a b).1 (resolvePairStep r a b).2 ∧
    (b.x = a.x → b.y = a.y → b.z.getD 0 = a.z.getD 0 →
      resolvePairStep r a b =
        (⟨a.x - (r - collisionEps / 2), a.y, some (a.z.getD 0)⟩,
         ⟨b.x + (r - collisionEps / 2), b.y, some (b.z.getD 0)⟩)) :=
  ⟨resolveCollisions_pair r a b, resolvePairStep_separation r a b hr he,
   fun hx hy hz => resolvePairStep_coincident r a b hr hx hy hz⟩

/-- Claim C7 witness: at `playerRadius = 16` and two coincident players at
    the origin, the amended theorem applies and in particular yields the
    axis-`(1,0,0)` separation at distance `32 - collisionEps`. -/
theorem claim7_witness :
    (0 : ℝ) < 16 ∧ collisionEps ≤ 16 ∧
    (resolveCollisions 16 [⟨0, 0, none⟩, ⟨0, 0, none⟩] =
        [(resolvePairStep 16 ⟨0, 0, none⟩ ⟨0, 0, none⟩).1,
         (resolvePairStep 16 ⟨0, 0, none⟩ ⟨0, 0, none⟩).2] ∧
      2 * 16 - 2 * collisionEps ≤
        dist3 (resolvePairStep 16 ⟨0, 0, none⟩ ⟨0, 0, none⟩).1
          (resolvePairStep 16 ⟨0, 0, none⟩ ⟨0, 0, none⟩).2 ∧
      ((⟨0, 0, none⟩ : Pos3).x = (⟨0, 0, none⟩ : Pos3).x →
       (⟨0, 0, none⟩ : Pos3).y = (⟨0, 0, none⟩ : Pos3).y →
       (⟨0, 0, none⟩ : Pos3).z.getD 0 = (⟨0, 0, none⟩ : Pos3).z.getD 0 →
        resolvePairStep 16 ⟨0, 0, none⟩ ⟨0, 0, none⟩ =
          (⟨(⟨0, 0, none⟩ : Pos3).x - (16 - collisionEps / 2),
             (⟨0, 0, none⟩ : Pos3).y, some ((⟨0, 0, none⟩ : Pos3).z.getD 0)⟩,
           ⟨(⟨0, 0, none⟩ : Pos3).x + (16 - collisionEps / 2),
             (⟨0, 0, none⟩ : Pos3).y, some ((⟨0, 0, none⟩ : Pos3).z.getD 0)⟩))) :=
  ⟨by norm_num, by norm_num [collisionEps],
   claim7_pair_separation 16 ⟨0, 0, none⟩ ⟨0, 0, none⟩ (by norm_num)
     (by norm_num [collisionEps])⟩


theorem getD_append_len {α : Type} (d : α) :
    ∀ (pre : List α) (x : α) (post : List α),
    (pre ++ x :: post).getD pre.length d = x := by
  intro pre
  induction pre with
  | nil => intro x post; rfl
  | cons p rest ih =>
    intro x post
    simpa [List.getD] using ih x post

theorem set_append_len {α : Type} :
    ∀ (pre : List α) (x y : α) (post : List α),
    (pre ++ x :: post).set pre.length y = pre ++ y :: post := by
  intro pre
  induction pre with
  | nil => intro x y post; rfl
  | cons p rest ih =>
    intro x y post
    simpa [List.set] using ih x y post

theorem eraseIdx_append_len {α : Type} :
    ∀ (pre : List α) (x : α) (post : List α),
    (pre ++ x :: post).eraseIdx pre.length = pre ++ post := by
  intro pre
  induction pre with
  | nil => intro x post; rfl
  | cons p rest ih =>
    intro x post
    simpa [List.eraseIdx] using ih x post

theorem wfItem_dest {x : JVal} (h : wfItem x = true) :
    ∃ xfs s q0, x = .obj xfs ∧ JVal.lookup xfs "id" = some (.str s) ∧
      JVal.lookup xfs "quantity" = some (.num q0) ∧ itemIdOf x = some s := by
  cases x with
  | obj fs =>
    simp only [wfItem, Bool.and_eq_true] at h
    obtain ⟨h1, h2⟩ := h
    cases hid : JVal.lookup fs "id" with
    | none => rw [hid] at h1; simp at h1
    | some idv =>
      rw [hid] at h1
      cases hqv : JVal.lookup fs "quantity" with
      | none => rw [hqv] at h2; simp at h2
      | some qv =>
        rw [hqv] at h2
        cases idv <;> simp at h1
        cases qv <;> simp at h2
        rename_i s q0
        exact ⟨fs, s, q0, rfl, hid, hqv, by simp [itemIdOf, hid]⟩
  | null => simp [wfItem] at h
  | undef => simp [wfItem] at h
  | num q => simp [wfItem] at h
  | nan => simp [wfItem] at h
  | str a => simp [wfItem] at h
  | bool b => simp [wfItem] at h
  | arr xs => simp [wfItem] at h

theorem findItemIdx_none (itemJ : JVal) (iid : String)
    (hid : itemJ.read "id" = .ok (some (.str iid))) :
    ∀ (items : List JVal) (n : Nat),
    (∀ x ∈ items, wfItem x = true) →
    (∀ x ∈ items, itemIdOf x ≠ some iid) →
    findItemIdx itemJ items n = .ok none := by
  intro items
  induction items with
  | nil => intro n _ _; rfl
  | cons x rest ih =>
    intro n hwf hno
    obtain ⟨xfs, s, q0, rfl, hxid, hxq, hio⟩ :=
      wfItem_dest (hwf _ (List.mem_cons_self _ _))
    have hsne : JVal.strictEq (.str s) (.str iid) = false := by
      simp only [JVal.strictEq, decide_eq_false_iff_not]
      intro he
      exact hno _ (List.mem_cons_self _ _) (by rw [hio, he])
    simp only [findItemIdx, Bind.bind, Except.bind, hid]
    simp only [JVal.read, hxid, Option.getD_some, hsne, Bool.false_eq_true,
      if_false]
    exact ih (n + 1) (fun y hy => hwf y (List.mem_cons_of_mem _ hy))
      (fun y hy => hno y (List.mem_cons_of_mem _ hy))

theorem findItemIdx_found (itemJ : JVal) (iid : String)
    (hid : itemJ.read "id" = .ok (some (.str iid))) :
    ∀ (pre : List JVal) (n : Nat),
    (∀ x ∈ pre, wfItem x = true) →
    (∀ x ∈ pre, itemIdOf x ≠ some iid) →
    ∀ (xfs : List (String × JVal)) (post : List JVal),
    JVal.lookup xfs "id" = some (.str iid) →
    findItemIdx itemJ (pre ++ .obj xfs :: post) n = .ok (some (n + pre.length)) := by
  intro pre
  induction pre with
  | nil =>
    intro n _ _ xfs post hxid
    simp only [List.nil_append, findItemIdx, Bind.bind, Except.bind, hid]
    simp only [JVal.read, hxid, Option.getD_some, JVal.strictEq, decide_True,
      if_true, List.length_nil]
    rfl
  | cons p rest ih =>
    intro n hwf hno xfs post hxid
    obtain ⟨pfs, s, q0, rfl, hpid, hpq, hio⟩ :=
      wfItem_dest (hwf _ (List.mem_cons_self _ _))
    have hsne : JVal.strictEq (.str s) (.str iid) = false := by
      simp only [JVal.strictEq, decide_eq_false_iff_not]
      intro he
      exact hno _ (List.mem_cons_self _ _) (by rw [hio, he])
    simp only [List.cons_append, findItemIdx, Bind.bind, Except.bind, hid]
    simp only [JVal.read, hpid, Option.getD_some, hsne, Bool.false_eq_true,
      if_false, List.append_eq]
    rw [ih (n + 1) (fun y hy => hwf y (List.mem_cons_of_mem _ hy))
      (fun y hy => hno y (List.mem_cons_of_mem _ hy)) xfs post hxid]
    simp only [List.length_cons]
    rw [show n + 1 + rest.length = n + (rest.length + 1) from by omega]

theorem bumpFirstItem_none (itemJ : JVal) (iid : String)
    (hid : itemJ.read "id" = .ok (some (.str iid))) :
    ∀ (items : List JVal),
    (∀ x ∈ items, wfItem x = true) →
    (∀ x ∈ items, itemIdOf x ≠ some iid) →
    bumpFirstItem itemJ items = .ok none := by
  intro items
  induction items with
  | nil => intro _ _; rfl
  | cons x rest ih =>
    intro hwf hno
    obtain ⟨xfs, s, q0, rfl, hxid, hxq, hio⟩ :=
      wfItem_dest (hwf _ (List.mem_cons_self _ _))
    have hsne : JVal.strictEq (.str s) (.str iid) = false := by
      simp only [JVal.strictEq, decide_eq_false_iff_not]
      intro he
      exact hno _ (List.mem_cons_self _ _) (by rw [hio, he])
    simp only [bumpFirstItem, Bind.bind, Except.bind, hid]
    simp only [JVal.read, hxid, Option.getD_some, hsne, Bool.false_eq_true,
      if_false]
    rw [ih (fun y hy => hwf y (List.mem_cons_of_mem _ hy))
      (fun y hy => hno y (List.mem_cons_of_mem _ hy))]
    rfl

theorem bumpFirstItem_found (itemJ : JVal) (iid : String) (q : ℚ)
    (hid : itemJ.read "id" = .ok (some (.str iid)))
    (hq : itemJ.read "quantity" = .ok (some (.num q))) :
    ∀ (tpre : List JVal),
    (∀ x ∈ tpre, wfItem x = true) →
    (∀ x ∈ tpre, itemIdOf x ≠ some iid) →
    ∀ (yfs : List (String × JVal)) (r0 : ℚ) (tpost : List JVal),
    JVal.lookup yfs "id" = some (.str iid) →
    JVal.lookup yfs "quantity" = some (.num r0) →
    bumpFirstItem itemJ (tpre ++ .obj yfs :: tpost) =
      .ok (some (tpre ++ .obj (JVal.setField yfs "quantity" (.num (r0 + q))) :: tpost)) := by
  intro tpre
  induction tpre with
  | nil =>
    intro _ _ yfs r0 tpost hyid hyq
    simp only [List.nil_append, bumpFirstItem, Bind.bind, Except.bind, hid, hq]
    simp only [JVal.read, hyid, hyq, Option.getD_some, JVal.strictEq,
      decide_True, if_true, JVal.write, JVal.jsAdd, JVal.toNumber]
    rfl
  | cons p rest ih =>
    intro hwf hno yfs r0 tpost hyid hyq
    obtain ⟨pfs, s, q0, rfl, hpid, hpq, hio⟩ :=
      wfItem_dest (hwf _ (List.mem_cons_self _ _))
    have hsne : JVal.strictEq (.str s) (.str iid) = false := by
      simp only [JVal.strictEq, decide_eq_false_iff_not]
      intro he
      exact hno _ (List.mem_cons_self _ _) (by rw [hio, he])
    simp only [List.cons_append, bumpFirstItem, Bind.bind, Except.bind, hid]
    simp only [JVal.read, hpid, Option.getD_some, hsne, Bool.false_eq_true,
      if_false, List.append_eq]
    rw [ih (fun y hy => hwf y (List.mem_cons_of_mem _ hy))
      (fun y hy => hno y (List.mem_cons_of_mem _ hy)) yfs r0 tpost hyid hyq]
    rfl

theorem resolveTransfer_reduces (mode : Mode) (authId : Option PlayerId)
    (msg : JVal) (sfs ifs : List (String × JVal)) (fromItems : List JVal)
    (f t : String) (itemJ : JVal)
    (hmt : msg.read "t" = .ok (some (.str "transfer")))
    (hmf : msg.read "from" = .ok (some (.str f)))
    (hmto : msg.read "to" = .ok (some (.str t)))
    (hmi : msg.read "item" = .ok (some itemJ))
    (hgate : gateRejects mode authId (some (.str f)) = false)
    (hinv : JVal.lookup sfs "inventories" = some (.obj ifs))
    (hfrom : JVal.lookup ifs f = some (.arr fromItems)) :
    resolveTransfer mode authId (.obj sfs) msg =
      (match findItemIdx itemJ fromItems 0 with
       | .error _ => ⟨.obj sfs, false, true⟩
       | .ok none => ⟨.obj sfs, false, false⟩
       | .ok (some idx) =>
         resolveTransferApply (.obj sfs) (.obj ifs) f t itemJ fromItems
           (if JVal.nullish (JVal.lookup ifs t) then JVal.arr []
            else (JVal.lookup ifs t).getD .undef) idx) := by
  simp only [resolveTransfer, hmt, hmf, hmto, hmi]
  simp only [hgate, Bool.false_eq_true, if_false, Option.getD_some, JVal.read,
    hinv, JVal.propKey, hfrom, JVal.nullish]

theorem resolveTransferApply_reject (sfs ifs : List (String × JVal))
    (f t : String) (itemJ : JVal) (q q0 : ℚ)
    (pre post : List JVal) (xfs : List (String × JVal)) (toRaw : JVal)
    (hiq : itemJ.read "quantity" = .ok (some (.num q)))
    (hxq : JVal.lookup xfs "quantity" = some (.num q0))
    (hlt : q0 < q) :
    resolveTransferApply (.obj sfs) (.obj ifs) f t itemJ
      (pre ++ .obj xfs :: post) toRaw pre.length = ⟨.obj sfs, false, false⟩ := by
  have hitem : (pre ++ JVal.obj xfs :: post).getD pre.length JVal.undef =
      .obj xfs := getD_append_len _ pre _ post
  simp only [resolveTransferApply, hitem, hiq]
  simp only [JVal.read, hxq, Option.getD_some, JVal.jsLt, JVal.toNumber]
  rw [if_pos (decide_eq_true hlt)]

theorem resolveTransferApply_accept (sfs ifs : List (String × JVal))
    (f t : String) (itemJ : JVal) (iid : String) (q q0 : ℚ)
    (pre post toItems : List JVal) (xfs : List (String × JVal))
    (hiid : itemJ.read "id" = .ok (some (.str iid)))
    (hiq : itemJ.read "quantity" = .ok (some (.num q)))
    (hxq : JVal.lookup xfs "quantity" = some (.num q0))
    (hne : t ≠ f)
    (hnlt : ¬ q0 < q)
    (hwfto : ∀ x ∈ toItems, wfItem x = true) :
    ((∀ x ∈ toItems, itemIdOf x ≠ some iid) →
      resolveTransferApply (.obj sfs) (.obj ifs) f t itemJ
        (pre ++ .obj xfs :: post) (.arr toItems) pre.length =
      ⟨.obj (JVal.setField sfs "inventories"
         (.obj (JVal.setField
           (JVal.setField ifs f (.arr (transferDecrement pre xfs post q0 q)))
           t (.arr (toItems ++ [JVal.spreadClone itemJ]))))), true, false⟩) ∧
    (∀ (tpre : List JVal) (yfs : List (String × JVal)) (tpost : List JVal)
        (r0 : ℚ),
      toItems = tpre ++ .obj yfs :: tpost →
      (∀ x ∈ tpre, itemIdOf x ≠ some iid) →
      JVal.lookup yfs "id" = some (.str iid) →
      JVal.lookup yfs "quantity" = some (.num r0) →
      resolveTransferApply (.obj sfs) (.obj ifs) f t itemJ
        (pre ++ .obj xfs :: post) (.arr toItems) pre.length =
      ⟨.obj (JVal.setField sfs "inventories"
         (.obj (JVal.setField
           (JVal.setField ifs f (.arr (transferDecrement pre xfs post q0 q)))
           t (.arr (tpre ++
             .obj (JVal.setField yfs "quantity" (.num (r0 + q))) :: tpost))))),
       true, false⟩) := by
  have hitem : (pre ++ JVal.obj xfs :: post).getD pre.length JVal.undef =
      .obj xfs := getD_append_len _ pre _ post
  have hnotlt : ¬ (decide (q0 < q) = true) := by
    simp only [decide_eq_true_eq]
    exact hnlt
  have hpruned : (if JVal.strictEq (.num (q0 - q)) (.num 0) = true
      then ((pre ++ JVal.obj xfs :: post).set pre.length
        (.obj (JVal.setField xfs "quantity" (.num (q0 - q))))).eraseIdx pre.length
      else (pre ++ JVal.obj xfs :: post).set pre.length
        (.obj (JVal.setField xfs "quantity" (.num (q0 - q))))) =
      transferDecrement pre xfs post q0 q := by
    simp only [JVal.strictEq, transferDecrement, set_append_len]
    by_cases hz : q0 - q = 0
    · rw [if_pos (decide_eq_true hz), if_pos hz]
      exact eraseIdx_append_len pre _ post
    · rw [if_neg (fun h => hz (of_decide_eq_true h)), if_neg hz]
  constructor
  · intro hno
    simp only [resolveTransferApply, hitem, hiq]
    simp only [JVal.read, hxq, Option.getD_some, JVal.jsLt, JVal.toNumber]
    rw [if_neg hnotlt]
    simp only [JVal.write, JVal.jsSub, JVal.toNumber]
    rw [hpruned]
    rw [if_neg hne]
    simp only [bumpFirstItem_none itemJ iid hiid toItems hwfto hno,
      JVal.write]
    rw [if_neg hne]
  · intro tpre yfs tpost r0 hdec htno hyid hyq
    subst hdec
    simp only [resolveTransferApply, hitem, hiq]
    simp only [JVal.read, hxq, Option.getD_some, JVal.jsLt, JVal.toNumber]
    rw [if_neg hnotlt]
    simp only [JVal.write, JVal.jsSub, JVal.toNumber]
    rw [hpruned]
    rw [if_neg hne]
    simp only [bumpFirstItem_found itemJ iid q hiid hiq tpre
      (fun y hy => hwfto y (List.mem_append_left _ hy)) htno yfs r0 tpost
      hyid hyq, JVal.write]
    rw [if_neg hne]

theorem recvItems_toRaw {ifs : List (String × JVal)} {t : String}
    {toItems : List JVal} (h : recvItems ifs t = some toItems) :
    (if JVal.nullish (JVal.lookup ifs t) then JVal.arr []
     else (JVal.lookup ifs t).getD .undef) = .arr toItems := by
  cases hlk : JVal.lookup ifs t with
  | none =>
    simp only [recvItems, hlk, Option.some.injEq] at h
    subst h
    rfl
  | some v =>
    cases v with
    | undef =>
      simp only [recvItems, hlk, Option.some.injEq] at h
      subst h
      rfl
    | null =>
      simp only [recvItems, hlk, Option.some.injEq] at h
      subst h
      rfl
    | arr xs =>
      simp only [recvItems, hlk, Option.some.injEq] at h
      subst h
      rfl
    | num q => exact Option.noConfusion (by simpa only [recvItems, hlk] using h)
    | nan => exact Option.noConfusion (by simpa only [recvItems, hlk] using h)
    | str a => exact Option.noConfusion (by simpa only [recvItems, hlk] using h)
    | bool b => exact Option.noConfusion (by simpa only [recvItems, hlk] using h)
    | obj o => exact Option.noConfusion (by simpa only [recvItems, hlk] using h)

/-- Claim C3 (confirmed): for a validated transfer envelope from `f` to
    `t` over a well-formed inventory state, `resolveTransfer` rejects
    exactly when the sender's list has no entry with the transferred item's
    id or the first such entry's quantity is below the transferred
    quantity, leaving the whole state unchanged on rejection; on acceptance
    the sender's entry is decremented in place (and pruned when it reaches
    exactly zero) and the receiver's list gets the quantity added to its
    first entry with the same id, or a shallow copy of the transferred
    item appended when it has none. -/
theorem claim3_transfer_exact
    (mode : Mode) (authId : Option PlayerId) (msg : JVal)
    (sfs ifs : List (String × JVal)) (fromItems : List JVal)
    (f t : String) (itemJ : JVal) (iid : String) (q : ℚ)
    (hmt : msg.read "t" = .ok (some (.str "transfer")))
    (hmf : msg.read "from" = .ok (some (.str f)))
    (hmto : msg.read "to" = .ok (some (.str t)))
    (hmi : msg.read "item" = .ok (some itemJ))
    (hgate : gateRejects mode authId (some (.str f)) = false)
    (hinv : JVal.lookup sfs "inventories" = some (.obj ifs))
    (hfrom : JVal.lookup ifs f = some (.arr fromItems))
    (hwf : ∀ x ∈ fromItems, wfItem x = true)
    (hiid : itemJ.read "id" = .ok (some (.str iid)))
    (hiq : itemJ.read "quantity" = .ok (some (.num q))) :
    ((∀ x ∈ fromItems, itemIdOf x ≠ some iid) →
      resolveTransfer mode authId (.obj sfs) msg = ⟨.obj sfs, false, false⟩) ∧
    (∀ (pre : List JVal) (xfs : List (String × JVal)) (post : List JVal)
        (q0 : ℚ),
      fromItems = pre ++ .obj xfs :: post →
      (∀ x ∈ pre, itemIdOf x ≠ some iid) →
      JVal.lookup xfs "id" = some (.str iid) →
      JVal.lookup xfs "quantity" = some (.num q0) →
      (q0 < q →
        resolveTransfer mode authId (.obj sfs) msg = ⟨.obj sfs, false, false⟩) ∧
      (¬ q0 < q → t ≠ f →
        ∀ (toItems : List JVal),
        recvItems ifs t = some toItems →
        (∀ x ∈ toItems, wfItem x = true) →
        ((∀ x ∈ toItems, itemIdOf x ≠ some iid) →
          resolveTransfer mode authId (.obj sfs) msg =
            ⟨.obj (JVal.setField sfs "inventories"
              (.obj (JVal.setField
                (JVal.setField ifs f
                  (.arr (transferDecrement pre xfs post q0 q)))
                t (.arr (toItems ++ [JVal.spreadClone itemJ]))))),
             true, false⟩) ∧
        (∀ (tpre : List JVal) (yfs : List (String × JVal)) (tpost : List JVal)
            (r0 : ℚ),
          toItems = tpre ++ .obj yfs :: tpost →
          (∀ x ∈ tpre, itemIdOf x ≠ some iid) →
          JVal.lookup yfs "id" = some (.str iid) →
          JVal.lookup yfs "quantity" = some (.num r0) →
          resolveTransfer mode authId (.obj sfs) msg =
            ⟨.obj (JVal.setField sfs "inventories"
              (.obj (JVal.setField
                (JVal.setField ifs f
                  (.arr (transferDecrement pre xfs post q0 q)))
                t (.arr (tpre ++
                  .obj (JVal.setField yfs "quantity" (.num (r0 + q)))
                    :: tpost))))),
             true, false⟩))) := by
  have hred := resolveTransfer_reduces mode authId msg sfs ifs fromItems f t
    itemJ hmt hmf hmto hmi hgate hinv hfrom
  refine ⟨?_, ?_⟩
  · intro hno
    rw [hred, findItemIdx_none itemJ iid hiid fromItems 0 hwf hno]
  · intro pre xfs post q0 hdec hpno hxid hxq
    subst hdec
    have hfound : findItemIdx itemJ (pre ++ .obj xfs :: post) 0 =
        .ok (some pre.length) := by
      have := findItemIdx_found itemJ iid hiid pre 0
        (fun x hx => hwf x (List.mem_append_left _ hx)) hpno xfs post hxid
      simpa using this
    refine ⟨?_, ?_⟩
    · intro hlt
      rw [hred, hfound]
      exact resolveTransferApply_reject sfs ifs f t itemJ q q0 pre post xfs _
        hiq hxq hlt
    · intro hnlt hne toItems hrecv hwfto
      have htoRaw := recvItems_toRaw hrecv
      have happ := resolveTransferApply_accept sfs ifs f t itemJ iid q q0
        pre post toItems xfs hiid hiq hxq hne hnlt hwfto
      refine ⟨?_, ?_⟩
      · intro hno
        rw [hred, hfound, htoRaw]
        exact happ.1 hno
      · intro tpre yfs tpost r0 hdec2 htno hyid hyq
        rw [hred, hfound, htoRaw]
        exact happ.2 tpre yfs tpost r0 hdec2 htno hyid hyq

/-- Claim C3 witness: player `A` holding 3 swords transfers 2 to player
    `B` with an empty inventory; the transfer is accepted, `A`'s entry is
    decremented to 1, and a copy of the transferred item is appended to
    `B`'s list. -/
theorem claim3_witness :
    resolveTransfer .timestamp none
      (.obj [("inventories", .obj [("A", .arr [.obj [("id", .str "sword"),
          ("quantity", .num 3)]]), ("B", .arr [])])])
      (.obj [("t", .str "transfer"), ("from", .str "A"), ("to", .str "B"),
        ("item", .obj [("id", .str "sword"), ("quantity", .num 2)])]) =
    ⟨.obj (JVal.setField [("inventories", .obj [("A", .arr [.obj [("id", .str "sword"),
          ("quantity", .num 3)]]), ("B", .arr [])])] "inventories"
       (.obj (JVal.setField
         (JVal.setField [("A", .arr [.obj [("id", .str "sword"),
             ("quantity", .num 3)]]), ("B", .arr [])] "A"
           (.arr (transferDecrement [] [("id", .str "sword"),
             ("quantity", .num 3)] [] 3 2)))
         "B" (.arr ([] ++ [JVal.spreadClone (.obj [("id", .str "sword"),
           ("quantity", .num 2)])]))))),
     true, false⟩ :=
  (((claim3_transfer_exact .timestamp none
      (.obj [("t", .str "transfer"), ("from", .str "A"), ("to", .str "B"),
        ("item", .obj [("id", .str "sword"), ("quantity", .num 2)])])
      [("inventories", .obj [("A", .arr [.obj [("id", .str "sword"),
          ("quantity", .num 3)]]), ("B", .arr [])])]
      [("A", .arr [.obj [("id", .str "sword"), ("quantity", .num 3)]]),
        ("B", .arr [])]
      [.obj [("id", .str "sword"), ("quantity", .num 3)]]
      "A" "B" (.obj [("id", .str "sword"), ("quantity", .num 2)])
      "sword" 2 rfl rfl rfl rfl rfl rfl rfl (by decide) rfl rfl).2
    [] [("id", .str "sword"), ("quantity", .num 3)] [] 3
    rfl (by simp) rfl rfl).2
    (by norm_num) (by decide) [] rfl (by simp)).1 (by simp)

theorem setField_lookup_self_eq :
    ∀ (fs : List (String × JVal)) (k : String) (v : JVal),
    JVal.lookup fs k = some v → JVal.setField fs k v = fs := by
  intro fs
  induction fs with
  | nil => intro k v h; simp [JVal.lookup] at h
  | cons kv rest ih =>
    intro k v h
    obtain ⟨k0, v0⟩ := kv
    by_cases hk : k0 = k
    · subst hk
      simp only [JVal.lookup, if_pos rfl] at h
      injection h with h
      subst h
      simp [JVal.setField]
    · simp only [JVal.lookup, if_neg hk] at h
      simp only [JVal.setField, if_neg hk]
      rw [ih k v h]

theorem lookup_none_of_not_mem_keys :
    ∀ (fs : List (String × JVal)) (p : String),
    p ∉ fs.map Prod.fst → JVal.lookup fs p = none := by
  intro fs
  induction fs with
  | nil => intro p _; rfl
  | cons kv rest ih =>
    intro p hp
    obtain ⟨k0, v0⟩ := kv
    simp only [List.map_cons, List.mem_cons, not_or] at hp
    obtain ⟨hne, hrest⟩ := hp
    simp only [JVal.lookup, if_neg (fun h : k0 = p => hne h.symm)]
    exact ih p hrest

theorem mem_keys_of_lookup_some :
    ∀ (fs : List (String × JVal)) (p : String) (v : JVal),
    JVal.lookup fs p = some v → p ∈ fs.map Prod.fst := by
  intro fs
  induction fs with
  | nil => intro p v h; simp [JVal.lookup] at h
  | cons kv rest ih =>
    intro p v h
    obtain ⟨k0, v0⟩ := kv
    by_cases hk : k0 = p
    · simp [hk]
    · simp only [JVal.lookup, if_neg hk] at h
      simp only [List.map_cons, List.mem_cons]
      exact Or.inr (ih p v h)

theorem overwriteEntries_lookup_l (l : String) :
    ∀ (entries base : List (String × JVal)),
    JVal.lookup (overwriteEntries base l entries) l = JVal.lookup base l := by
  intro entries
  induction entries with
  | nil => intro base; rfl
  | cons kv rest ih =>
    intro base
    obtain ⟨pid, v⟩ := kv
    by_cases hp : pid = l
    · simp only [overwriteEntries, if_pos hp]
      exact ih base
    · simp only [overwriteEntries, if_neg hp]
      rw [ih (JVal.setField base pid v)]
      exact JVal.lookup_setField_ne base pid l v (Ne.symm hp)

theorem overwriteEntries_lookup_ne (l p : String) (hp : p ≠ l) :
    ∀ (entries base : List (String × JVal)),
    (entries.map Prod.fst).Nodup →
    JVal.lookup (overwriteEntries base l entries) p =
      (match JVal.lookup entries p with
       | some v => some v
       | none => JVal.lookup base p) := by
  intro entries
  induction entries with
  | nil => intro base _; rfl
  | cons kv rest ih =>
    intro base hnd
    obtain ⟨pid, v⟩ := kv
    simp only [List.map_cons, List.nodup_cons] at hnd
    obtain ⟨hpid, hnd⟩ := hnd
    by_cases hpp : pid = p
    · subst hpp
      have hcons : JVal.lookup ((pid, v) :: rest) pid = some v := by
        simp [JVal.lookup]
      rw [hcons]
      simp only [overwriteEntries]
      rw [if_neg (fun h : pid = l => hp (h ▸ rfl))]
      rw [ih (JVal.setField base pid v) hnd]
      rw [lookup_none_of_not_mem_keys rest pid hpid]
      rw [JVal.lookup_setField_self]
    · have hcons : JVal.lookup ((pid, v) :: rest) p = JVal.lookup rest p := by
        simp only [JVal.lookup, if_neg hpp]
      rw [hcons]
      by_cases hl : pid = l
      · simp only [overwriteEntries, if_pos hl]
        exact ih base hnd
      · simp only [overwriteEntries, if_neg hl]
        rw [ih (JVal.setField base pid v) hnd]
        cases hres : JVal.lookup rest p with
        | some w => rfl
        | none =>
          exact JVal.lookup_setField_ne base pid p v (Ne.symm hpp)

theorem overwriteInvEntries_lookup_l (l : String) :
    ∀ (entries base : List (String × JVal)),
    JVal.lookup (overwriteInvEntries base l entries) l = JVal.lookup base l := by
  intro entries
  induction entries with
  | nil => intro base; rfl
  | cons kv rest ih =>
    intro base
    obtain ⟨pid, v⟩ := kv
    by_cases hp : pid = l
    · simp only [overwriteInvEntries, if_pos hp]
      exact ih base
    · simp only [overwriteInvEntries, if_neg hp]
      cases v with
      | arr xs =>
        rw [ih (JVal.setField base pid (.arr (xs.map JVal.spreadClone)))]
        exact JVal.lookup_setField_ne base pid l _ (Ne.symm hp)
      | null => exact ih base
      | undef => exact ih base
      | num q => exact ih base
      | nan => exact ih base
      | str a => exact ih base
      | bool b => exact ih base
      | obj o => exact ih base

theorem overwriteInvEntries_lookup_ne (l p : String) (hp : p ≠ l) :
    ∀ (entries base : List (String × JVal)),
    (entries.map Prod.fst).Nodup →
    JVal.lookup (overwriteInvEntries base l entries) p =
      (match JVal.lookup entries p with
       | some (.arr xs) => some (.arr (xs.map JVal.spreadClone))
       | some _ => JVal.lookup base p
       | none => JVal.lookup base p) := by
  intro entries
  induction entries with
  | nil => intro base _; rfl
  | cons kv rest ih =>
    intro base hnd
    obtain ⟨pid, v⟩ := kv
    simp only [List.map_cons, List.nodup_cons] at hnd
    obtain ⟨hpid, hnd⟩ := hnd
    by_cases hpp : pid = p
    · subst hpp
      have hcons : JVal.lookup ((pid, v) :: rest) pid = some v := by
        simp [JVal.lookup]
      rw [hcons]
      simp only [overwriteInvEntries]
      rw [if_neg (fun h : pid = l => hp (h ▸ rfl))]
      have hnone := lookup_none_of_not_mem_keys rest pid hpid
      cases v with
      | arr xs =>
        rw [ih _ hnd, hnone]
        rw [JVal.lookup_setField_self]
      | null => rw [ih base hnd, hnone]
      | undef => rw [ih base hnd, hnone]
      | num q => rw [ih base hnd, hnone]
      | nan => rw [ih base hnd, hnone]
      | str a => rw [ih base hnd, hnone]
      | bool b => rw [ih base hnd, hnone]
      | obj o => rw [ih base hnd, hnone]
    · have hstep : JVal.lookup ((pid, v) :: rest) p = JVal.lookup rest p := by
        simp only [JVal.lookup, if_neg hpp]
      rw [hstep]
      by_cases hl : pid = l
      · simp only [overwriteInvEntries, if_pos hl]
        exact ih base hnd
      · simp only [overwriteInvEntries, if_neg hl]
        cases v with
        | arr xs =>
          rw [ih _ hnd]
          cases hres : JVal.lookup rest p with
          | none =>
            exact JVal.lookup_setField_ne base pid p _ (Ne.symm hpp)
          | some w =>
            cases w with
            | arr ys => rfl
            | null => exact JVal.lookup_setField_ne base pid p _ (Ne.symm hpp)
            | undef => exact JVal.lookup_setField_ne base pid p _ (Ne.symm hpp)
            | num q => exact JVal.lookup_setField_ne base pid p _ (Ne.symm hpp)
            | nan => exact JVal.lookup_setField_ne base pid p _ (Ne.symm hpp)
            | str a => exact JVal.lookup_setField_ne base pid p _ (Ne.symm hpp)
            | bool b => exact JVal.lookup_setField_ne base pid p _ (Ne.symm hpp)
            | obj o => exact JVal.lookup_setField_ne base pid p _ (Ne.symm hpp)
        | null => exact ih base hnd
        | undef => exact ih base hnd
        | num q => exact ih base hnd
        | nan => exact ih base hnd
        | str a => exact ih base hnd
        | bool b => exact ih base hnd
        | obj o => exact ih base hnd

theorem copyPlayers_spec (l : String) :
    ∀ (entries ps sfs : List (String × JVal)),
    JVal.lookup sfs "players" = some (.obj ps) →
    copyPlayers (some l) (.obj sfs) entries =
      (.obj (JVal.setField sfs "players" (.obj (overwriteEntries ps l entries))),
       false) := by
  intro entries
  induction entries with
  | nil =>
    intro ps sfs h
    simp only [copyPlayers, overwriteEntries]
    rw [setField_lookup_self_eq sfs "players" (.obj ps) h]
  | cons kv rest ih =>
    intro ps sfs h
    obtain ⟨pid, v⟩ := kv
    by_cases hl : l = pid
    · simp only [copyPlayers]
      rw [if_pos (by rw [hl])]
      rw [ih ps sfs h]
      simp only [overwriteEntries]
      rw [if_pos hl.symm]
    · simp only [copyPlayers]
      rw [if_neg (fun hc => hl (Option.some.inj hc))]
      simp only [JVal.read, h, Option.getD_some, JVal.write]
      rw [ih (JVal.setField ps pid v)
        (JVal.setField sfs "players" (.obj (JVal.setField ps pid v)))
        (JVal.lookup_setField_self sfs "players" _)]
      rw [JVal.setField_setField_self]
      simp only [overwriteEntries]
      rw [if_neg (fun hc : pid = l => hl hc.symm)]

theorem copyInventories_spec (l : String) :
    ∀ (entries is sfs : List (String × JVal)),
    JVal.lookup sfs "inventories" = some (.obj is) →
    (∀ pv ∈ entries, pv.1 ≠ l → ∃ xs, pv.2 = JVal.arr xs) →
    copyInventories (some l) (.obj sfs) entries =
      (.obj (JVal.setField sfs "inventories"
        (.obj (overwriteInvEntries is l entries))), false) := by
  intro entries
  induction entries with
  | nil =>
    intro is sfs h _
    simp only [copyInventories, overwriteInvEntries]
    rw [setField_lookup_self_eq sfs "inventories" (.obj is) h]
  | cons kv rest ih =>
    intro is sfs h harr
    obtain ⟨pid, v⟩ := kv
    by_cases hl : l = pid
    · simp only [copyInventories]
      rw [if_pos (by rw [hl])]
      rw [ih is sfs h (fun pv hpv => harr pv (List.mem_cons_of_mem _ hpv))]
      simp only [overwriteInvEntries]
      rw [if_pos hl.symm]
    · obtain ⟨xs, hxs⟩ := harr (pid, v) (List.mem_cons_self _ _)
        (fun hc : pid = l => hl hc.symm)
      subst hxs
      simp only [copyInventories]
      rw [if_neg (fun hc => hl (Option.some.inj hc))]
      simp only [JVal.read, h, Option.getD_some, JVal.write]
      rw [ih (JVal.setField is pid (.arr (xs.map JVal.spreadClone)))
        (JVal.setField sfs "inventories"
          (.obj (JVal.setField is pid (.arr (xs.map JVal.spreadClone)))))
        (JVal.lookup_setField_self sfs "inventories" _)
        (fun pv hpv => harr pv (List.mem_cons_of_mem _ hpv))]
      rw [JVal.setField_setField_self]
      simp only [overwriteInvEntries]
      rw [if_neg (fun hc : pid = l => hl hc.symm)]

theorem applyLocalJoin_skip (l : String) (lastSeq : List (String × JVal))
    (st incoming : JVal) (hseq : seqAbsent lastSeq l = false) :
    applyLocalJoin (some l) lastSeq st incoming = (st, false) := by
  simp only [applyLocalJoin]
  rw [if_pos (Or.inr (by rw [hseq]; exact fun hc => Bool.noConfusion hc))]

theorem applyLocalJoin_adopt (l : String) (lastSeq : List (String × JVal))
    (sfs2 ifs ips iis ps2 is2 : List (String × JVal)) (lpv : JVal)
    (lxs : List JVal)
    (hseq : seqAbsent lastSeq l = true) (hl0 : l ≠ "")
    (hip : JVal.lookup ifs "players" = some (.obj ips))
    (hlpv : JVal.lookup ips l = some lpv)
    (htr : JVal.truthy lpv = true)
    (hii : JVal.lookup ifs "inventories" = some (.obj iis))
    (hlinv : JVal.lookup iis l = some (.arr lxs))
    (hp2 : JVal.lookup sfs2 "players" = some (.obj ps2))
    (hi2 : JVal.lookup sfs2 "inventories" = some (.obj is2)) :
    applyLocalJoin (some l) lastSeq (.obj sfs2) (.obj ifs) =
      (.obj (JVal.setField
        (JVal.setField sfs2 "players" (.obj (JVal.setField ps2 l lpv)))
        "inventories"
        (.obj (JVal.setField is2 l (.arr (lxs.map JVal.spreadClone))))),
       false) := by
  have hskip : ¬ (l = "" ∨ ¬ seqAbsent lastSeq l = true) := by
    simp [hl0, hseq]
  simp only [applyLocalJoin]
  rw [if_neg hskip]
  simp only [JVal.read, hip, hlpv, hii, hlinv, Option.getD_some]
  simp only [joinAdoptPlayer, Option.getD_some, htr, if_true, JVal.read, hp2,
    JVal.write, Bool.false_eq_true, if_false]
  simp only [joinAdoptInventory, Option.getD_some, JVal.truthy, if_true,
    JVal.read,
    JVal.lookup_setField_ne sfs2 "players" "inventories"
      (.obj (JVal.setField ps2 l lpv)) (by decide),
    hi2, JVal.write]

theorem applyLocalJoin_absent (l : String) (lastSeq : List (String × JVal))
    (st : JVal) (ifs ips iis : List (String × JVal))
    (hseq : seqAbsent lastSeq l = true) (hl0 : l ≠ "")
    (hip : JVal.lookup ifs "players" = some (.obj ips))
    (hlpv : JVal.lookup ips l = none)
    (hii : JVal.lookup ifs "inventories" = some (.obj iis))
    (hlinv : JVal.lookup iis l = none) :
    applyLocalJoin (some l) lastSeq st (.obj ifs) = (st, false) := by
  have hskip : ¬ (l = "" ∨ ¬ seqAbsent lastSeq l = true) := by
    simp [hl0, hseq]
  simp only [applyLocalJoin]
  rw [if_neg hskip]
  simp only [JVal.read, hip, hii, Option.getD_some, hlpv, hlinv]
  simp only [joinAdoptPlayer, joinAdoptInventory, Option.getD_none,
    JVal.truthy, Bool.false_eq_true, if_false]

theorem applyFullState_eval_skip (l : String) (lastSeq : List (String × JVal))
    (sfs ifs ps is ips iis : List (String × JVal)) (n0 n1 : ℚ)
    (hp : JVal.lookup sfs "players" = some (.obj ps))
    (hi : JVal.lookup sfs "inventories" = some (.obj is))
    (htk : JVal.lookup sfs "tick" = some (.num n0))
    (hip : JVal.lookup ifs "players" = some (.obj ips))
    (hii : JVal.lookup ifs "inventories" = some (.obj iis))
    (hitk : JVal.lookup ifs "tick" = some (.num n1))
    (harr : ∀ pv ∈ iis, pv.1 ≠ l → ∃ xs, pv.2 = JVal.arr xs)
    (hseq : seqAbsent lastSeq l = false) :
    applyFullState (some l) lastSeq (.obj sfs) (.obj ifs) =
      (.obj (JVal.setField (JVal.setField
        (JVal.setField (JVal.setField sfs "players"
          (.obj (overwriteEntries ps l ips)))
          "inventories" (.obj (overwriteInvEntries is l iis)))
        "objects" ((JVal.lookup ifs "objects").getD .undef))
        "tick" (.num (max n0 n1))), false) := by
  have hcp := copyPlayers_spec l ips ps sfs hp
  have hsfsA : JVal.lookup (JVal.setField sfs "players"
      (.obj (overwriteEntries ps l ips))) "inventories" = some (.obj is) := by
    rw [JVal.lookup_setField_ne _ _ _ _ (by decide)]
    exact hi
  have hci := copyInventories_spec l iis is _ hsfsA harr
  have haj := applyLocalJoin_skip l lastSeq (.obj (JVal.setField
    (JVal.setField sfs "players" (.obj (overwriteEntries ps l ips)))
    "inventories" (.obj (overwriteInvEntries is l iis)))) (.obj ifs) hseq
  have htk3 : JVal.lookup (JVal.setField (JVal.setField
      (JVal.setField sfs "players" (.obj (overwriteEntries ps l ips)))
      "inventories" (.obj (overwriteInvEntries is l iis)))
      "objects" ((JVal.lookup ifs "objects").getD .undef)) "tick"
      = some (.num n0) := by
    rw [JVal.lookup_setField_ne _ _ _ _ (by decide),
      JVal.lookup_setField_ne _ _ _ _ (by decide),
      JVal.lookup_setField_ne _ _ _ _ (by decide)]
    exact htk
  simp only [applyFullState, JVal.read, hip, hii, JVal.entries,
    Option.getD_some, hcp, hci, haj, Bool.false_eq_true, if_false,
    JVal.write, htk3, hitk, JVal.jsMax, JVal.toNumber]

theorem applyFullState_eval_adopt (l : String) (lastSeq : List (String × JVal))
    (sfs ifs ps is ips iis : List (String × JVal)) (n0 n1 : ℚ)
    (lpv : JVal) (lxs : List JVal)
    (hp : JVal.lookup sfs "players" = some (.obj ps))
    (hi : JVal.lookup sfs "inventories" = some (.obj is))
    (htk : JVal.lookup sfs "tick" = some (.num n0))
    (hip : JVal.lookup ifs "players" = some (.obj ips))
    (hii : JVal.lookup ifs "inventories" = some (.obj iis))
    (hitk : JVal.lookup ifs "tick" = some (.num n1))
    (harr : ∀ pv ∈ iis, pv.1 ≠ l → ∃ xs, pv.2 = JVal.arr xs)
    (hseq : seqAbsent lastSeq l = true) (hl0 : l ≠ "")
    (hlpv : JVal.lookup ips l = some lpv)
    (htr : JVal.truthy lpv = true)
    (hlinv : JVal.lookup iis l = some (.arr lxs)) :
    applyFullState (some l) lastSeq (.obj sfs) (.obj ifs) =
      (.obj (JVal.setField (JVal.setField (JVal.setField (JVal.setField
        (JVal.setField (JVal.setField sfs "players"
          (.obj (overwriteEntries ps l ips)))
          "inventories" (.obj (overwriteInvEntries is l iis)))
        "players" (.obj (JVal.setField (overwriteEntries ps l ips) l lpv)))
        "inventories" (.obj (JVal.setField (overwriteInvEntries is l iis) l
          (.arr (lxs.map JVal.spreadClone)))))
        "objects" ((JVal.lookup ifs "objects").getD .undef))
        "tick" (.num (max n0 n1))), false) := by
  have hcp := copyPlayers_spec l ips ps sfs hp
  have hsfsA : JVal.lookup (JVal.setField sfs "players"
      (.obj (overwriteEntries ps l ips))) "inventories" = some (.obj is) := by
    rw [JVal.lookup_setField_ne _ _ _ _ (by decide)]
    exact hi
  have hci := copyInventories_spec l iis is _ hsfsA harr
  have hBp : JVal.lookup (JVal.setField (JVal.setField sfs "players"
      (.obj (overwriteEntries ps l ips))) "inventories"
      (.obj (overwriteInvEntries is l iis))) "players"
      = some (.obj (overwriteEntries ps l ips)) := by
    rw [JVal.lookup_setField_ne _ _ _ _ (by decide),
      JVal.lookup_setField_self]
  have hBi : JVal.lookup (JVal.setField (JVal.setField sfs "players"
      (.obj (overwriteEntries ps l ips))) "inventories"
      (.obj (overwriteInvEntries is l iis))) "inventories"
      = some (.obj (overwriteInvEntries is l iis)) := by
    rw [JVal.lookup_setField_self]
  have haj := applyLocalJoin_adopt l lastSeq _ ifs ips iis _ _ lpv lxs
    hseq hl0 hip hlpv htr hii hlinv hBp hBi
  have htk3 : JVal.lookup (JVal.setField (JVal.setField (JVal.setField
      (JVal.setField (JVal.setField sfs "players"
        (.obj (overwriteEntries ps l ips)))
        "inventories" (.obj (overwriteInvEntries is l iis)))
      "players" (.obj (JVal.setField (overwriteEntries ps l ips) l lpv)))
      "inventories" (.obj (JVal.setField (overwriteInvEntries is l iis) l
        (.arr (lxs.map JVal.spreadClone)))))
      "objects" ((JVal.lookup ifs "objects").getD .undef)) "tick"
      = some (.num n0) := by
    rw [JVal.lookup_setField_ne _ _ _ _ (by decide),
      JVal.lookup_setField_ne _ _ _ _ (by decide),
      JVal.lookup_setField_ne _ _ _ _ (by decide),
      JVal.lookup_setField_ne _ _ _ _ (by decide),
      JVal.lookup_setField_ne _ _ _ _ (by decide)]
    exact htk
  simp only [applyFullState, JVal.read, hip, hii, JVal.entries,
    Option.getD_some, hcp, hci, haj, Bool.false_eq_true, if_false,
    JVal.write, htk3, hitk, JVal.jsMax, JVal.toNumber]

/-- Claim C1 (confirmed): applying a `state_full` snapshot overwrites
    `players[p]` and `inventories[p]` for every snapshot peer `p` other
    than the local id with (deep copies of) the snapshot entries, leaves
    entries absent from the snapshot untouched, takes the local id's
    entries from the snapshot exactly when `lastAppliedSeq` has no entry
    for the local id and leaves the local player's live state unchanged
    otherwise, replaces `objects` wholesale, and sets `tick` to the max of
    the old and incoming tick, raising no error. -/
theorem claim1_snapshot_merge (l : String) (lastSeq : List (String × JVal))
    (sfs ifs ps is ips iis : List (String × JVal)) (n0 n1 : ℚ)
    (hp : JVal.lookup sfs "players" = some (.obj ps))
    (hi : JVal.lookup sfs "inventories" = some (.obj is))
    (htk : JVal.lookup sfs "tick" = some (.num n0))
    (hip : JVal.lookup ifs "players" = some (.obj ips))
    (hii : JVal.lookup ifs "inventories" = some (.obj iis))
    (hitk : JVal.lookup ifs "tick" = some (.num n1))
    (hnd1 : (ips.map Prod.fst).Nodup) (hnd2 : (iis.map Prod.fst).Nodup)
    (harr : ∀ pv ∈ iis, pv.1 ≠ l → ∃ xs, pv.2 = JVal.arr xs) :
    (seqAbsent lastSeq l = false →
      (applyFullState (some l) lastSeq (.obj sfs) (.obj ifs)).2 = false ∧
      (∀ p, p ≠ l →
        playersOf (applyFullState (some l) lastSeq (.obj sfs) (.obj ifs)).1 p =
          (match JVal.lookup ips p with
           | some v => some v
           | none => JVal.lookup ps p)) ∧
      (∀ p xs, p ≠ l → JVal.lookup iis p = some (.arr xs) →
        inventoriesOf
          (applyFullState (some l) lastSeq (.obj sfs) (.obj ifs)).1 p =
          some (.arr (xs.map JVal.spreadClone))) ∧
      (∀ p, p ≠ l → JVal.lookup iis p = none →
        inventoriesOf
          (applyFullState (some l) lastSeq (.obj sfs) (.obj ifs)).1 p =
          JVal.lookup is p) ∧
      playersOf (applyFullState (some l) lastSeq (.obj sfs) (.obj ifs)).1 l =
        JVal.lookup ps l ∧
      inventoriesOf
        (applyFullState (some l) lastSeq (.obj sfs) (.obj ifs)).1 l =
        JVal.lookup is l ∧
      objectsOf (applyFullState (some l) lastSeq (.obj sfs) (.obj ifs)).1 =
        some ((JVal.lookup ifs "objects").getD .undef) ∧
      tickOf (applyFullState (some l) lastSeq (.obj sfs) (.obj ifs)).1 =
        some (max n0 n1)) ∧
    (seqAbsent lastSeq l = true → l ≠ "" →
      ∀ (lpv : JVal) (lxs : List JVal),
      JVal.lookup ips l = some lpv → JVal.truthy lpv = true →
      JVal.lookup iis l = some (.arr lxs) →
      (applyFullState (some l) lastSeq (.obj sfs) (.obj ifs)).2 = false ∧
      (∀ p, p ≠ l →
        playersOf (applyFullState (some l) lastSeq (.obj sfs) (.obj ifs)).1 p =
          (match JVal.lookup ips p with
           | some v => some v
           | none => JVal.lookup ps p)) ∧
      (∀ p xs, p ≠ l → JVal.lookup iis p = some (.arr xs) →
        inventoriesOf
          (applyFullState (some l) lastSeq (.obj sfs) (.obj ifs)).1 p =
          some (.arr (xs.map JVal.spreadClone))) ∧
      (∀ p, p ≠ l → JVal.lookup iis p = none →
        inventoriesOf
          (applyFullState (some l) lastSeq (.obj sfs) (.obj ifs)).1 p =
          JVal.lookup is p) ∧
      playersOf (applyFullState (some l) lastSeq (.obj sfs) (.obj ifs)).1 l =
        some lpv ∧
      inventoriesOf
        (applyFullState (some l) lastSeq (.obj sfs) (.obj ifs)).1 l =
        some (.arr (lxs.map JVal.spreadClone)) ∧
      objectsOf (applyFullState (some l) lastSeq (.obj sfs) (.obj ifs)).1 =
        some ((JVal.lookup ifs "objects").getD .undef) ∧
      tickOf (applyFullState (some l) lastSeq (.obj sfs) (.obj ifs)).1 =
        some (max n0 n1)) := by
  constructor
  · intro hseq
    rw [applyFullState_eval_skip l lastSeq sfs ifs ps is ips iis n0 n1
      hp hi htk hip hii hitk harr hseq]
    refine ⟨rfl, ?_, ?_, ?_, ?_, ?_, ?_, ?_⟩
    · intro p hpne
      simp only [playersOf]
      rw [JVal.lookup_setField_ne _ _ _ _ (by decide),
        JVal.lookup_setField_ne _ _ _ _ (by decide),
        JVal.lookup_setField_ne _ _ _ _ (by decide),
        JVal.lookup_setField_self]
      exact overwriteEntries_lookup_ne l p hpne ips ps hnd1
    · intro p xs hpne hlk
      simp only [inventoriesOf]
      rw [JVal.lookup_setField_ne _ _ _ _ (by decide),
        JVal.lookup_setField_ne _ _ _ _ (by decide),
        JVal.lookup_setField_self]
      show JVal.lookup (overwriteInvEntries is l iis) p = _
      rw [overwriteInvEntries_lookup_ne l p hpne iis is hnd2, hlk]
    · intro p hpne hlk
      simp only [inventoriesOf]
      rw [JVal.lookup_setField_ne _ _ _ _ (by decide),
        JVal.lookup_setField_ne _ _ _ _ (by decide),
        JVal.lookup_setField_self]
      show JVal.lookup (overwriteInvEntries is l iis) p = _
      rw [overwriteInvEntries_lookup_ne l p hpne iis is hnd2, hlk]
    · simp only [playersOf]
      rw [JVal.lookup_setField_ne _ _ _ _ (by decide),
        JVal.lookup_setField_ne _ _ _ _ (by decide),
        JVal.lookup_setField_ne _ _ _ _ (by decide),
        JVal.lookup_setField_self]
      exact overwriteEntries_lookup_l l ips ps
    · simp only [inventoriesOf]
      rw [JVal.lookup_setField_ne _ _ _ _ (by decide),
        JVal.lookup_setField_ne _ _ _ _ (by decide),
        JVal.lookup_setField_self]
      exact overwriteInvEntries_lookup_l l iis is
    · simp only [objectsOf]
      rw [JVal.lookup_setField_ne _ _ _ _ (by decide),
        JVal.lookup_setField_self]
    · simp only [tickOf]
      rw [JVal.lookup_setField_self]
  · intro hseq hl0 lpv lxs hlpv htr hlinv
    rw [applyFullState_eval_adopt l lastSeq sfs ifs ps is ips iis n0 n1
      lpv lxs hp hi htk hip hii hitk harr hseq hl0 hlpv htr hlinv]
    refine ⟨rfl, ?_, ?_, ?_, ?_, ?_, ?_, ?_⟩
    · intro p hpne
      simp only [playersOf]
      rw [JVal.lookup_setField_ne _ _ _ _ (by decide),
        JVal.lookup_setField_ne _ _ _ _ (by decide),
        JVal.lookup_setField_ne _ _ _ _ (by decide),
        JVal.lookup_setField_self]
      show JVal.lookup (JVal.setField (overwriteEntries ps l ips) l lpv) p = _
      rw [JVal.lookup_setField_ne _ _ _ _ hpne]
      exact overwriteEntries_lookup_ne l p hpne ips ps hnd1
    · intro p xs hpne hlk
      simp only [inventoriesOf]
      rw [JVal.lookup_setField_ne _ _ _ _ (by decide),
        JVal.lookup_setField_ne _ _ _ _ (by decide),
        JVal.lookup_setField_self]
      show JVal.lookup (JVal.setField (overwriteInvEntries is l iis) l
        (.arr (lxs.map JVal.spreadClone))) p = _
      rw [JVal.lookup_setField_ne _ _ _ _ hpne]
      rw [overwriteInvEntries_lookup_ne l p hpne iis is hnd2, hlk]
    · intro p hpne hlk
      simp only [inventoriesOf]
      rw [JVal.lookup_setField_ne _ _ _ _ (by decide),
        JVal.lookup_setField_ne _ _ _ _ (by decide),
        JVal.lookup_setField_self]
      show JVal.lookup (JVal.setField (overwriteInvEntries is l iis) l
        (.arr (lxs.map JVal.spreadClone))) p = _
      rw [JVal.lookup_setField_ne _ _ _ _ hpne]
      rw [overwriteInvEntries_lookup_ne l p hpne iis is hnd2, hlk]
    · simp only [playersOf]
      rw [JVal.lookup_setField_ne _ _ _ _ (by decide),
        JVal.lookup_setField_ne _ _ _ _ (by decide),
        JVal.lookup_setField_ne _ _ _ _ (by decide),
        JVal.lookup_setField_self]
      show JVal.lookup (JVal.setField (overwriteEntries ps l ips) l lpv) l = _
      rw [JVal.lookup_setField_self]
    · simp only [inventoriesOf]
      rw [JVal.lookup_setField_ne _ _ _ _ (by decide),
        JVal.lookup_setField_ne _ _ _ _ (by decide),
        JVal.lookup_setField_self]
      show JVal.lookup (JVal.setField (overwriteInvEntries is l iis) l
        (.arr (lxs.map JVal.spreadClone))) l = _
      rw [JVal.lookup_setField_self]
    · simp only [objectsOf]
      rw [JVal.lookup_setField_ne _ _ _ _ (by decide),
        JVal.lookup_setField_self]
    · simp only [tickOf]
      rw [JVal.lookup_setField_self]

/-- Claim C1 witness: on an initial join (empty `lastAppliedSeq`), local id
    `"me"`, a snapshot from the host overwrites the local player's entry
    and inventory too, replaces `objects` with the snapshot's value, and
    raises the tick to the max, with no error. -/
theorem claim1_witness :
    (applyFullState (some "me") []
      (.obj [("players", .obj [("me", .str "L"), ("A", .str "PA")]),
        ("inventories", .obj [("me", .arr []), ("A", .arr [])]),
        ("objects", .obj []), ("tick", .num 1)])
      (.obj [("players", .obj [("A", .str "PA2"), ("me", .str "L2")]),
        ("inventories", .obj [("A", .arr [.obj [("id", .str "x")]]),
          ("me", .arr [])]),
        ("objects", .str "OBJ"), ("tick", .num 5)])).2 = false ∧
    playersOf (applyFullState (some "me") []
      (.obj [("players", .obj [("me", .str "L"), ("A", .str "PA")]),
        ("inventories", .obj [("me", .arr []), ("A", .arr [])]),
        ("objects", .obj []), ("tick", .num 1)])
      (.obj [("players", .obj [("A", .str "PA2"), ("me", .str "L2")]),
        ("inventories", .obj [("A", .arr [.obj [("id", .str "x")]]),
          ("me", .arr [])]),
        ("objects", .str "OBJ"), ("tick", .num 5)])).1 "me" =
      some (.str "L2") ∧
    inventoriesOf (applyFullState (some "me") []
      (.obj [("players", .obj [("me", .str "L"), ("A", .str "PA")]),
        ("inventories", .obj [("me", .arr []), ("A", .arr [])]),
        ("objects", .obj []), ("tick", .num 1)])
      (.obj [("players", .obj [("A", .str "PA2"), ("me", .str "L2")]),
        ("inventories", .obj [("A", .arr [.obj [("id", .str "x")]]),
          ("me", .arr [])]),
        ("objects", .str "OBJ"), ("tick", .num 5)])).1 "me" =
      some (.arr []) ∧
    objectsOf (applyFullState (some "me") []
      (.obj [("players", .obj [("me", .str "L"), ("A", .str "PA")]),
        ("inventories", .obj [("me", .arr []), ("A", .arr [])]),
        ("objects", .obj []), ("tick", .num 1)])
      (.obj [("players", .obj [("A", .str "PA2"), ("me", .str "L2")]),
        ("inventories", .obj [("A", .arr [.obj [("id", .str "x")]]),
          ("me", .arr [])]),
        ("objects", .str "OBJ"), ("tick", .num 5)])).1 =
      some (.str "OBJ") ∧
    tickOf (applyFullState (some "me") []
      (.obj [("players", .obj [("me", .str "L"), ("A", .str "PA")]),
        ("inventories", .obj [("me", .arr []), ("A", .arr [])]),
        ("objects", .obj []), ("tick", .num 1)])
      (.obj [("players", .obj [("A", .str "PA2"), ("me", .str "L2")]),
        ("inventories", .obj [("A", .arr [.obj [("id", .str "x")]]),
          ("me", .arr [])]),
        ("objects", .str "OBJ"), ("tick", .num 5)])).1 =
      some (max 1 5) :=
  have h := (claim1_snapshot_merge "me" []
    [("players", .obj [("me", .str "L"), ("A", .str "PA")]),
      ("inventories", .obj [("me", .arr []), ("A", .arr [])]),
      ("objects", .obj []), ("tick", .num 1)]
    [("players", .obj [("A", .str "PA2"), ("me", .str "L2")]),
      ("inventories", .obj [("A", .arr [.obj [("id", .str "x")]]),
        ("me", .arr [])]),
      ("objects", .str "OBJ"), ("tick", .num 5)]
    [("me", .str "L"), ("A", .str "PA")]
    [("me", .arr []), ("A", .arr [])]
    [("A", .str "PA2"), ("me", .str "L2")]
    [("A", .arr [.obj [("id", .str "x")]]), ("me", .arr [])]
    1 5 rfl rfl rfl rfl rfl rfl (by decide) (by decide)
    (by
      intro pv hpv hne
      simp only [List.mem_cons, List.not_mem_nil, or_false] at hpv
      rcases hpv with rfl | rfl
      · exact ⟨_, rfl⟩
      · exact ⟨_, rfl⟩)).2
    rfl (by decide) (.str "L2") [] rfl rfl rfl
  ⟨h.1, h.2.2.2.2.1, h.2.2.2.2.2.1, h.2.2.2.2.2.2.1, h.2.2.2.2.2.2.2⟩

/-- Claim C4 witness: with local id `"2"`, after digit-only peer `"10"`
    connects, the elected host is a least element of `{"2", "10"}` under
    the numeric order (`"2"` sorts before `"10"`). -/
theorem claim4_witness :
    digitOnly "2" = true ∧
    (((pmRun "2" [.connected "10"]).hostId = none ∧
        (pmRun "2" [.connected "10"]).peers = []) ∨
      hostIsLeast "2" (pmRun "2" [.connected "10"]) = true) :=
  ⟨rfl, claim4_hostId_least "2" [.connected "10"] rfl (by decide)⟩

end P2Play

namespace P2Play

/-- Claim C5 witness: a move envelope whose wire content forges
    `from: "EVIL"`, received on the transport attached to peer `"P"`, is
    delivered with `from = "P"`. -/
theorem claim5_witness :
    onMessageEmit "P"
        (.text (some (.obj [("t", .str "move"), ("from", .str "EVIL"), ("ts", .num 1)]))) =
      some (.obj [("t", .str "move"), ("from", .str "P"), ("ts", .num 1)]) ∧
    JVal.getProp (.obj [("t", .str "move"), ("from", .str "P"), ("ts", .num 1)]) "from" =
      some (.str "P") := by
  refine ⟨rfl, claim5_transport_identity_wins "P"
    (.text (some (.obj [("t", .str "move"), ("from", .str "EVIL"), ("ts", .num 1)]))) _ rfl⟩

end P2Play
